import Mathlib

/-!
Verification development for `aliad/data/point_cloud_dataset.py`
(class `PointCloudDataset`).

The Python source is shallowly embedded: numeric cell values are modelled
as rationals (`ℚ`), numpy arrays as (nested) lists, awkward arrays as
explicit record structures, and every fallible operation returns
`Except Err _`.  Stateful methods thread the object state explicitly; a
raised Python exception is modelled as `.error (e, st)` where `st` is the
object state at the moment the exception propagates (Python mutates the
object in place, so state changes made before the raise survive it).
-/

namespace Aliad

/-- Numeric cell value of the dataset (numpy floats are modelled as `ℚ`). -/
abbrev Val := ℚ

/-- One column of a jet record: either one scalar per event, or one
variable-length list per event.  This mirrors the awkward type
introspection used by `PointCloudDataset.is_ragged`
(`isinstance(array.type.content, ak.types.ListType)`): raggedness is a
property of the column type. -/
inductive Col where
  | scalar (v : List Val)
  | ragged (v : List (List Val))
deriving DecidableEq, Repr

/-- Mirrors `PointCloudDataset.is_ragged`: a column is ragged iff its
declared element type is list-valued. -/
def is_ragged : Col → Bool
  | .ragged _ => true
  | .scalar _ => false

/-- Association-list lookup (first match wins), modelling Python dict /
awkward record field access by key. -/
def alookup {κ α : Type} [DecidableEq κ] : List (κ × α) → κ → Option α
  | [], _ => none
  | (k, v) :: rest, key => if k = key then some v else alookup rest key

/-- Python dict update `d[k] = v`: replace the value in place if the key
exists (keeping its position), else append the new binding. -/
def aupdate {κ α : Type} [DecidableEq κ] : List (κ × α) → κ → α → List (κ × α)
  | [], k, v => [(k, v)]
  | (k0, v0) :: rest, k, v =>
      if k0 = k then (k, v) :: rest else (k0, v0) :: aupdate rest k v

/-- The awkward slice `array[:sample_size]` used by the static array
helpers: `none` leaves the array unchanged, `some n` keeps the first `n`
events (fewer if the array is shorter, as in Python slicing). -/
def applySampleSize {α : Type} (v : List α) : Option ℕ → List α
  | none => v
  | some n => v.take n

/-- Mirrors `PointCloudDataset.get_padded_array` (with the source
default `clip=True`, the only mode the loader uses):
`ak.fill_none(ak.pad_none(array[:sample_size], pad_size, clip=True), pad_val)`.
Every event row is truncated or right-padded with `pad_val` to length
exactly `pad_size`. -/
def get_padded_array (v : List (List Val)) (pad_size : ℕ) (pad_val : Val)
    (sample_size : Option ℕ) : List (List Val) :=
  (applySampleSize v sample_size).map
    (fun xs => xs.take pad_size ++ List.replicate (pad_size - xs.length) pad_val)

/-- Mirrors `PointCloudDataset.get_array`: plain conversion of a
non-ragged column, optionally truncated to `sample_size` events. -/
def get_array (v : List Val) (sample_size : Option ℕ) : List Val :=
  applySampleSize v sample_size

/-- Mirrors `PointCloudDataset.get_mask_array` (default `clip=True`):
`ak.to_numpy(ak.pad_none(array[:sample_size], pad_size, clip=True)).mask`.
`ak.pad_none` puts `None` in every padded slot, and the `.mask` attribute
of the resulting `numpy.ma.MaskedArray` is `True` exactly at the missing
(i.e. padded) positions and `False` at positions holding real data.  The
mask is modelled elementwise, one boolean per padded slot. -/
def get_mask_array (v : List (List Val)) (pad_size : ℕ)
    (sample_size : Option ℕ) : List (List Bool) :=
  (applySampleSize v sample_size).map
    (fun xs => (List.range pad_size).map (fun k => decide (xs.length ≤ k)))

/-- One sample event records: the outer array length (`len(sample_arrays)`)
and the per-jet sub-records keyed `"j1"`, `"j2"`, ..., each mapping column
names to columns.  In a well-formed source every column holds `len`
events; the loader reads `len` from the array itself, as the code does. -/
structure SampleData where
  len : ℕ
  jets : List (String × List (String × Col))
deriving DecidableEq, Repr

/-- Content of one parquet file as loaded by `ak.from_parquet`: either a
combined record array keyed by sample name (the single-filename layout)
or directly one sample per-jet records (the per-sample-file layout). -/
inductive Source where
  | combined (len : ℕ) (samples : List (String × SampleData))
  | single (d : SampleData)
deriving DecidableEq, Repr

/-- Exceptions the loader can raise, tagged by Python exception class.
`fieldNotFound` is the array library record-lookup failure (it carries
only the missing field name); `unboundLocal` is Python
`UnboundLocalError` for reading a local variable before assignment. -/
inductive Err where
  | runtimeError (msg : String)
  | valueError (msg : String)
  | fieldNotFound (field : String)
  | unboundLocal (name : String)
  | attributeError (name : String)
  | assertionError
  | typeError (msg : String)
deriving DecidableEq, Repr

/-- Rendering of an exception to its message text.  Messages raised by the
source are carried verbatim; the `fieldNotFound`, `unboundLocal` and
`attributeError` renderings are modelled on the external libraries that
raise them (the field error names only the field, nothing else). -/
def Err.message : Err → String
  | .runtimeError m => m
  | .valueError m => m
  | .fieldNotFound f => "no field " ++ f ++ " in record"
  | .unboundLocal n => "local variable " ++ n ++ " referenced before assignment"
  | .attributeError a => "PointCloudDataset object has no attribute " ++ a
  | .assertionError => "AssertionError"
  | .typeError m => m

/-- `ak.fields` of a loaded array: the top-level record field names. -/
def sourceFields : Source → List String
  | .combined _ samples => samples.map (fun p => p.1)
  | .single d => d.jets.map (fun p => p.1)

/-- Field access `cache_arrays[sample]` on the combined layout.  Selecting
a missing field raises the array library field-lookup error.  (Selecting
a sample name from a per-sample file would yield a column rather than a
sample record; that degenerate layout is modelled as the same field-lookup
failure.) -/
def getSampleSub (src : Source) (sample : String) : Except Err SampleData :=
  match src with
  | .combined _ samples =>
    match alookup samples sample with
    | some d => .ok d
    | none => .error (.fieldNotFound sample)
  | .single _ => .error (.fieldNotFound sample)

/-- In the dict-filename branch the code sets
`cache_sample_arrays = cache_arrays`, i.e. the whole loaded file is used
as the sample data.  A combined file used this way exposes sample-name
fields, none of which are jet records; it is modelled as a record with no
jet fields. -/
def sourceAsSample : Source → SampleData
  | .single d => d
  | .combined n _ => ⟨n, []⟩

/-- The `filenames` argument of `load`: one combined file for all samples,
or one file per sample. -/
inductive Filenames where
  | str (f : String)
  | dict (m : List (String × String))
deriving DecidableEq, Repr

/-- A processed per-(jet, column) numpy array: 1-D `(events,)` for a
scalar column, 2-D `(events, pad_size)` for a padded ragged column. -/
inductive Arr where
  | a1 (v : List Val)
  | a2 (v : List (List Val))
deriving DecidableEq, Repr

/-- Result of `np.stack(feature_arrays, -1)` for one jet: 2-D
`(events, ncols)` when every column was scalar, 3-D
`(events, pad_size, ncols)` when every column was padded. -/
inductive Stacked where
  | s2 (v : List (List Val))
  | s3 (v : List (List (List Val)))
deriving DecidableEq, Repr

/-- A feature-group tensor: `(events, njet, ncols)` without ragged
columns, `(events, njet, pad_size, ncols)` with them. -/
inductive Tensor where
  | t3 (v : List (List (List Val)))
  | t4 (v : List (List (List (List Val))))
deriving DecidableEq, Repr

/-- Leading event-axis length of a tensor. -/
def Tensor.events : Tensor → ℕ
  | .t3 v => v.length
  | .t4 v => v.length

/-- The mask tensor, shaped `(events, njet, pad_size)`. -/
abbrev Mask3 := List (List (List Bool))

/-- A value of the published feature dictionary: a numeric feature-group
tensor, or (under the key `"part_masks"`) the boolean mask tensor. -/
inductive FVal where
  | tensor (t : Tensor)
  | mask (m : Mask3)
deriving DecidableEq, Repr

/-- Leading event-axis length of a published feature-dictionary value. -/
def FVal.events : FVal → ℕ
  | .tensor t => t.events
  | .mask m => m.length

/-- The mutable state of a `PointCloudDataset` object.  `label_map` is the
sample-to-class map derived in `set_class_labels`; the published dataset
lives in `_features` / `_labels` / `_weights` (labels and weights carry
the trailing `expand_dims` axis, so each row is a singleton list); the two
`cache_*` fields are the transient per-sample cache. -/
structure PCD where
  label_map : List (String × Int)
  feature_dict : List (String × List String)
  sample_sizes : List (String × ℕ)
  num_jets : ℕ
  pad_size : ℕ
  shuffle : Bool
  seed : ℕ
  _features : List (String × FVal)
  _labels : Option (List (List Int))
  _weights : Option (List (List Val))
  cache_arrays : Option Source
  cache_sample_arrays : Option SampleData
deriving DecidableEq, Repr

/-- Mirrors `PointCloudDataset.clear_cache`. -/
def clear_cache (st : PCD) : PCD :=
  { st with cache_arrays := none, cache_sample_arrays := none }

/-- Property `X`. -/
def PCD.X (st : PCD) : List (String × FVal) := st._features

/-- Property `y`. -/
def PCD.y (st : PCD) : Option (List (List Int)) := st._labels

/-- Property `weight`. -/
def PCD.weight (st : PCD) : Option (List (List Val)) := st._weights

/-- Every attribute name resolvable on a `PointCloudDataset` instance:
the instance attributes assigned in `__init__` plus the class-level
methods, properties and the default feature dictionary.  (`class_labels`,
`stdout` and `verbosity` come from `set_class_labels` / `AbstractObject`.)
The name `features` is not among them: the class defines `_features` and
the property `X`, but no `features` attribute. -/
def pointCloudDatasetAttributes : List String :=
  ["class_labels", "label_map", "feature_dict", "sample_sizes", "num_jets",
   "pad_size", "shuffle", "seed", "_features", "_labels", "_weights",
   "cache_arrays", "cache_sample_arrays", "stdout", "verbosity",
   "DEFAULT_FEATURE_DICT", "set_class_labels", "is_ragged",
   "get_padded_array", "get_array", "get_mask_array", "_load_sample_data",
   "clear_cache", "load", "X", "y", "weight", "masks", "clear"]

/-- Mirrors the property `masks`, whose body is
`return self.features.get(<part_masks>, None)`: Python first resolves the
attribute `features` on the instance and the class; if it is absent the
access raises `AttributeError` before `.get` is ever reached. -/
def PCD.masksProperty (st : PCD) : Except Err (Option FVal) :=
  if "features" ∈ pointCloudDatasetAttributes then
    .ok (alookup st._features "part_masks")
  else
    .error (.attributeError "features")

/-- Mirrors `_load_sample_data` (lines 79-97).  `fs` abstracts
`ak.from_parquet`.  On the string branch a warm cache short-circuits with
only a field-name check (returning the state untouched, in particular
leaving `cache_sample_arrays` as it was); a cold cache loads the file,
stores it, and selects the sample sub-record.  On the dict branch the
named file is loaded and used directly as the sample data.  Raised
exceptions carry the state at the raise point. -/
def load_sample_data (fs : String → Source) (filenames : Filenames)
    (sample : String) (st : PCD) : Except (Err × PCD) PCD :=
  match filenames with
  | .str fname =>
    match st.cache_arrays with
    | some src =>
      if sample ∈ sourceFields src then .ok st
      else .error
        (.runtimeError s!"dataset does not contain the sample \"{sample}\"", st)
    | none =>
      let src := fs fname
      let st1 : PCD := { st with cache_arrays := some src }
      match getSampleSub src sample with
      | .error e => .error (e, st1)
      | .ok sa => .ok { st1 with cache_sample_arrays := some sa }
  | .dict m =>
    match alookup m sample with
    | none => .error
        (.valueError s!"no input file specified for the sample \"{sample}\"", st)
    | some fname =>
      let src := fs fname
      .ok { st with cache_arrays := some src,
                    cache_sample_arrays := some (sourceAsSample src) }

/-- Size-cap resolution (lines 119-125), kept exactly as written: when an
override is configured the code raises if `available > requested` and
otherwise adopts the requested size.  The message reproduces the source
f-string (including its missing closing parenthesis). -/
def resolveSampleSize (sample_sizes : List (String × ℕ)) (sample : String)
    (avail : ℕ) : Except Err ℕ :=
  match alookup sample_sizes sample with
  | none => .ok avail
  | some req =>
    if avail > req then
      .error (.runtimeError s!"can not request more events than is available for the sample \"{sample}\" (requested = {req}, available = {avail}")
    else .ok req

/-- `[m]` for a present optional value, `[]` otherwise: the conditional
appends of lines 159-160 and 167. -/
def optToList {α : Type} : Option α → List α
  | some m => [m]
  | none => []

/-- The "only get the mask once per jet" policy (lines 148-151): a newly
derived mask is adopted only while the accumulator is still `None`. -/
def firstMask (macc : Option (List (List Bool))) (m : List (List Bool)) :
    Option (List (List Bool)) :=
  match macc with
  | none => some m
  | some m0 => some m0

/-- Per-column loop of one jet (lines 142-156).  Each column access
re-reads `sample_arrays[jet_key][column]`; a missing jet or column raises
the field-lookup error.  The first ragged column encountered supplies the
jet mask (the accumulator `macc` is set only when still `none`). -/
def processColumns (sa : SampleData) (jetKey : String) (pad ss : ℕ) :
    List String → Option (List (List Bool)) →
    Except Err (List Arr × Option (List (List Bool)))
  | [], macc => .ok ([], macc)
  | c :: cs, macc =>
    match alookup sa.jets jetKey with
    | none => .error (.fieldNotFound jetKey)
    | some jetRec =>
      match alookup jetRec c with
      | none => .error (.fieldNotFound c)
      | some (.ragged v) =>
        match processColumns sa jetKey pad ss cs
            (firstMask macc (get_mask_array v pad (some ss))) with
        | .error e => .error e
        | .ok (as, m) => .ok (.a2 (get_padded_array v pad 0 (some ss)) :: as, m)
      | some (.scalar v) =>
        match processColumns sa jetKey pad ss cs macc with
        | .error e => .error e
        | .ok (as, m) => .ok (.a1 (get_array v (some ss)) :: as, m)

/-- Collects a list of 1-D arrays, failing if any entry is 2-D (numpy
would reject the mixed-rank stack). -/
def asA1 : List Arr → Option (List (List Val))
  | [] => some []
  | .a1 v :: rest => (asA1 rest).map (fun vs => v :: vs)
  | .a2 _ :: _ => none

/-- Collects a list of 2-D arrays, failing on any 1-D entry. -/
def asA2 : List Arr → Option (List (List (List Val)))
  | [] => some []
  | .a2 v :: rest => (asA2 rest).map (fun vs => v :: vs)
  | .a1 _ :: _ => none

/-- The numpy error raised when stacked arrays disagree in shape. -/
def shapeErr : Err := .valueError "all input arrays must have the same shape"

/-- The numpy error raised by `np.stack([])`. -/
def emptyStackErr : Err := .valueError "need at least one array to stack"

/-- Mirrors `np.stack(feature_arrays, -1)` (line 158): all per-column
arrays must share rank and shape; columns become the new trailing axis.
Shapes are read off the list structure (for a guard-passing call the
result entry `[i][c]`, resp. `[i][j][c]`, is column `c` value at event
`i` (slot `j`)). -/
def stackLast (arrs : List Arr) : Except Err Stacked :=
  match arrs with
  | [] => .error emptyStackErr
  | .a1 v :: rest =>
    match asA1 rest with
    | none => .error shapeErr
    | some vs =>
      let cols := v :: vs
      let e := v.length
      if cols.all (fun c => c.length == e) then
        .ok (.s2 ((List.range e).map (fun i => cols.map (fun c => c.getD i 0))))
      else .error shapeErr
  | .a2 v :: rest =>
    match asA2 rest with
    | none => .error shapeErr
    | some vs =>
      let cols := v :: vs
      let e := v.length
      let p := (v.headD []).length
      if cols.all (fun c => c.length == e && c.all (fun r => r.length == p)) then
        .ok (.s3 ((List.range e).map (fun i =>
          (List.range p).map (fun j =>
            cols.map (fun c => (c.getD i []).getD j 0)))))
      else .error shapeErr

/-- Collects per-jet 2-D stacks, failing on rank mixture. -/
def asS2 : List Stacked → Option (List (List (List Val)))
  | [] => some []
  | .s2 v :: rest => (asS2 rest).map (fun vs => v :: vs)
  | .s3 _ :: _ => none

/-- Collects per-jet 3-D stacks, failing on rank mixture. -/
def asS3 : List Stacked → Option (List (List (List (List Val))))
  | [] => some []
  | .s3 v :: rest => (asS3 rest).map (fun vs => v :: vs)
  | .s2 _ :: _ => none

/-- Mirrors `np.stack(jet_feature_arrays, axis=1)` (line 163): jets become
axis 1, so event row `i` of the result lists every jet row `i`. -/
def stackJets (js : List Stacked) : Except Err Tensor :=
  match js with
  | [] => .error emptyStackErr
  | .s2 v :: rest =>
    match asS2 rest with
    | none => .error shapeErr
    | some vs =>
      let jets := v :: vs
      let e := v.length
      let k := (v.headD []).length
      if jets.all (fun w => w.length == e && w.all (fun r => r.length == k)) then
        .ok (.t3 ((List.range e).map (fun i => jets.map (fun w => w.getD i []))))
      else .error shapeErr
  | .s3 v :: rest =>
    match asS3 rest with
    | none => .error shapeErr
    | some vs =>
      let jets := v :: vs
      let e := v.length
      let p := (v.headD []).length
      let k := ((v.headD []).headD []).length
      if jets.all (fun w => w.length == e &&
          w.all (fun m2 => m2.length == p && m2.all (fun r => r.length == k))) then
        .ok (.t4 ((List.range e).map (fun i => jets.map (fun w => w.getD i []))))
      else .error shapeErr

/-- Mirrors `np.stack(jet_mask_arrays, axis=1)` (line 166). -/
def stackMasks (ms : List (List (List Bool))) : Except Err Mask3 :=
  match ms with
  | [] => .error emptyStackErr
  | m :: rest =>
    let jets := m :: rest
    let e := m.length
    if jets.all (fun w => w.length == e) then
      .ok ((List.range e).map (fun i => jets.map (fun w => w.getD i [])))
    else .error shapeErr

/-- Per-jet loop of one feature group (lines 139-161) over the jet
indices `range(1, num_jets + 1)`: each jet columns are processed and
stacked; a jet contributes to `jet_mask_arrays` only when a ragged column
set its mask. -/
def processJets (sa : SampleData) (pad ss : ℕ) (cols : List String) :
    List ℕ → Except Err (List Stacked × List (List (List Bool)))
  | [] => .ok ([], [])
  | i :: is =>
    let jetKey := "j" ++ toString i
    match processColumns sa jetKey pad ss cols none with
    | .error e => .error e
    | .ok (arrs, maskOpt) =>
      match stackLast arrs with
      | .error e => .error e
      | .ok stk =>
        match processJets sa pad ss cols is with
        | .error e => .error e
        | .ok (rest, masksRest) =>
          .ok (stk :: rest, optToList maskOpt ++ masksRest)

/-- Appends one sample tensor to the per-group accumulator dictionary,
creating the entry on first use (lines 134-135 and 164). -/
def appendGroupTensor : List (String × List Tensor) → String → Tensor →
    List (String × List Tensor)
  | [], g, t => [(g, [t])]
  | (g0, ts) :: rest, g, t =>
    if g0 = g then (g0, ts ++ [t]) :: rest
    else (g0, ts) :: appendGroupTensor rest g t

/-- Per-feature-group loop of one sample (lines 131-166): each group
jets are processed and stacked into one tensor; whenever a group produced
jet masks, the sample-wide `mask_arrays` is overwritten with their stack
(a later group without ragged columns leaves it unchanged). -/
def processGroups (sa : SampleData) (pad ss numJets : ℕ) :
    List (String × List String) → List (String × List Tensor) → Option Mask3 →
    Except Err (List (String × List Tensor) × Option Mask3)
  | [], feats, mcur => .ok (feats, mcur)
  | (g, cols) :: gs, feats, mcur =>
    match processJets sa pad ss cols (List.range' 1 numJets) with
    | .error e => .error e
    | .ok (stks, jetMasks) =>
      match stackJets stks with
      | .error e => .error e
      | .ok t =>
        match jetMasks with
        | [] => processGroups sa pad ss numJets gs (appendGroupTensor feats g t) mcur
        | _ :: _ =>
          match stackMasks jetMasks with
          | .error e => .error e
          | .ok m3 =>
            processGroups sa pad ss numJets gs (appendGroupTensor feats g t) (some m3)

/-- Adds a sample contribution to the per-class event totals
(lines 128-130). -/
def bumpClassSize : List (Int × ℕ) → Int → ℕ → List (Int × ℕ)
  | [], cv, n => [(cv, n)]
  | (c, s) :: rest, cv, n =>
    if c = cv then (c, s + n) :: rest
    else (c, s) :: bumpClassSize rest cv n

/-- Loop state of `load`: the per-group tensor lists, per-sample label
arrays and mask tensors, the running class totals, and the object state. -/
structure Acc where
  features : List (String × List Tensor)
  labels : List (List Int)
  masks : List Mask3
  classSizes : List (Int × ℕ)
  st : PCD
deriving DecidableEq, Repr

/-- The published feature dictionary (lines 194-195): the concatenated
group tensors, with the mask tensor stored under `"part_masks"` when one
exists (overwriting any feature group of that name, as a dict assignment
does). -/
def publishedFeatures (concd : List (String × Tensor)) (maskOpt : Option Mask3) :
    List (String × FVal) :=
  match maskOpt with
  | some m => aupdate (concd.map (fun p => (p.1, FVal.tensor p.2)))
      "part_masks" (FVal.mask m)
  | none => concd.map (fun p => (p.1, FVal.tensor p.2))

/-- One iteration of the per-sample loop (lines 112-168). -/
def sampleStep (fs : String → Source) (filenames : Filenames)
    (sample : String) (acc : Acc) : Except (Err × PCD) Acc :=
  match alookup acc.st.label_map sample with
  | none => .error
      (.runtimeError s!"no class value defined for the sample \"{sample}\"", acc.st)
  | some classVal =>
    match load_sample_data fs filenames sample acc.st with
    | .error e => .error e
    | .ok st =>
      match st.cache_sample_arrays with
      | none => .error (.typeError "object of type NoneType has no len()", st)
      | some sa =>
        match resolveSampleSize st.sample_sizes sample sa.len with
        | .error e => .error (e, st)
        | .ok ss =>
          match processGroups sa st.pad_size ss st.num_jets st.feature_dict
              acc.features none with
          | .error e => .error (e, st)
          | .ok (feats, mopt) =>
            .ok { features := feats,
                  labels := acc.labels ++ [List.replicate ss classVal],
                  masks := acc.masks ++ optToList mopt,
                  classSizes := bumpClassSize acc.classSizes classVal ss,
                  st := st }

/-- The whole per-sample loop. -/
def processSamples (fs : String → Source) (filenames : Filenames) :
    List String → Acc → Except (Err × PCD) Acc
  | [], acc => .ok acc
  | s :: rest, acc =>
    match sampleStep fs filenames s acc with
    | .error e => .error e
    | .ok acc' => processSamples fs filenames rest acc'

/-- Collects per-sample 3-D tensors, failing on rank mixture. -/
def asT3 : List Tensor → Option (List (List (List (List Val))))
  | [] => some []
  | .t3 v :: rest => (asT3 rest).map (fun vs => v :: vs)
  | .t4 _ :: _ => none

/-- Collects per-sample 4-D tensors, failing on rank mixture. -/
def asT4 : List Tensor → Option (List (List (List (List (List Val)))))
  | [] => some []
  | .t4 v :: rest => (asT4 rest).map (fun vs => v :: vs)
  | .t3 _ :: _ => none

/-- Mirrors `np.concatenate` of one group per-sample tensors along the
event axis (line 172): ranks must agree across samples, rows are joined,
and the non-event dimensions must match (checked on the rows, as numpy
checks the trailing shapes). -/
def concatGroup (ts : List Tensor) : Except Err Tensor :=
  match ts with
  | [] => .error (.valueError "need at least one array to concatenate")
  | .t3 v :: rest =>
    match asT3 rest with
    | none => .error shapeErr
    | some vs =>
      let all := (v :: vs).flatten
      let nj := (all.headD []).length
      if all.all (fun r => r.length == nj) then .ok (.t3 all)
      else .error shapeErr
  | .t4 v :: rest =>
    match asT4 rest with
    | none => .error shapeErr
    | some vs =>
      let all := (v :: vs).flatten
      let nj := (all.headD []).length
      if all.all (fun r => r.length == nj) then .ok (.t4 all)
      else .error shapeErr

/-- Mirrors `np.concatenate(masks)` (line 180). -/
def concatMasks (ms : List Mask3) : Except Err Mask3 :=
  match ms with
  | [] => .error (.valueError "need at least one array to concatenate")
  | m :: rest =>
    let all := (m :: rest).flatten
    let nj := (all.headD []).length
    if all.all (fun r => r.length == nj) then .ok all
    else .error shapeErr

/-- The masks branch of the combination step (lines 179-183): concatenate
when any sample produced a mask, else no mask tensor. -/
def concatMasksOpt : List Mask3 → Except Err (Option Mask3)
  | [] => .ok none
  | m :: rest =>
    match concatMasks (m :: rest) with
    | .error e => .error e
    | .ok all => .ok (some all)

/-- Concatenates every feature group in dictionary order (lines 171-173). -/
def concatAll : List (String × List Tensor) → Except Err (List (String × Tensor))
  | [] => .ok []
  | (g, ts) :: rest =>
    match concatGroup ts with
    | .error e => .error e
    | .ok t =>
      match concatAll rest with
      | .error e => .error e
      | .ok r => .ok ((g, t) :: r)

/-- Indexed gather `array[index]` along the event axis. -/
def gatherTensor (t : Tensor) (idx : List ℕ) : Tensor :=
  match t with
  | .t3 v => .t3 (idx.map (fun i => v.getD i []))
  | .t4 v => .t4 (idx.map (fun i => v.getD i []))

/-- The class-weight computation (lines 196-199): start from
`np.ones(labels.shape)` and, for each recorded class total, divide the
weights at the positions whose label equals that class value. -/
def applyClassWeights (labels : List Int) (classSizes : List (Int × ℕ)) :
    List Val :=
  classSizes.foldl
    (fun ws p =>
      (labels.zip ws).map (fun q => if q.1 = p.1 then q.2 / (p.2 : Val) else q.2))
    (labels.map (fun _ => (1 : Val)))

/-- Shuffle branch and publication (lines 184-205).  With `shuffle` on,
the permuted index is drawn and applied to the (local) features and labels,
after which the read of the not-yet-assigned local `weights` on line 191
raises `UnboundLocalError`.  Otherwise the mask (if any) is stored in the
feature dictionary under `"part_masks"`, weights are computed, labels and
weights get their trailing axis, the dataset is published and the cache
cleared. -/
def afterChecks (rng : ℕ → ℕ → List ℕ) (st : PCD)
    (concd : List (String × Tensor)) (sizes0 : ℕ) (labels : List Int)
    (maskOpt : Option Mask3) (classSizes : List (Int × ℕ)) :
    Except (Err × PCD) PCD :=
  if st.shuffle then
    let index := rng st.seed sizes0
    let _shuffledFeatures := concd.map (fun p => (p.1, gatherTensor p.2 index))
    let _shuffledLabels := index.map (fun i => labels.getD i 0)
    .error (.unboundLocal "weights", st)
  else
    .ok { st with
          _features := publishedFeatures concd maskOpt,
          _labels := some (labels.map (fun l => [l])),
          _weights := some ((applyClassWeights labels classSizes).map
            (fun w => [w])),
          cache_arrays := none, cache_sample_arrays := none }

/-- Combination and validation step of `load` (lines 169-205): groups are
concatenated, labels are concatenated (`np.concatenate` of an empty list
raises), the event counts are validated across groups and against the
labels, the masks are concatenated and asserted consistent, and control
passes to `afterChecks`. -/
def finalize (rng : ℕ → ℕ → List ℕ) (acc : Acc) : Except (Err × PCD) PCD :=
  match concatAll acc.features with
  | .error e => .error (e, acc.st)
  | .ok concd =>
    match acc.labels with
    | [] => .error (.valueError "need at least one array to concatenate", acc.st)
    | l0 :: lrest =>
      if (concd.map (fun p => p.2.events)).dedup.length = 1 then
        if (concd.map (fun p => p.2.events)).headD 0 =
            ((l0 :: lrest) : List (List Int)).flatten.length then
          match concatMasksOpt acc.masks with
          | .error e => .error (e, acc.st)
          | .ok none => afterChecks rng acc.st concd
              ((concd.map (fun p => p.2.events)).headD 0)
              ((l0 :: lrest) : List (List Int)).flatten none acc.classSizes
          | .ok (some m) =>
            if m.length = (concd.map (fun p => p.2.events)).headD 0 then
              afterChecks rng acc.st concd
                ((concd.map (fun p => p.2.events)).headD 0)
                ((l0 :: lrest) : List (List Int)).flatten (some m) acc.classSizes
            else .error (.assertionError, acc.st)
        else .error
          (.runtimeError "inconsistent sample size between features and labels", acc.st)
      else .error
        (.runtimeError "inconsistent sample size in different feature types", acc.st)

/-- Mirrors `PointCloudDataset.load` (lines 103-205).  `fs` abstracts
`ak.from_parquet`; `rng` abstracts the seeded
`np.random.seed(self.seed)` / `np.random.shuffle` pair, mapping the seed
and the event count to the shuffled index array. -/
def load (fs : String → Source) (rng : ℕ → ℕ → List ℕ) (filenames : Filenames)
    (samples : Option (List String)) (self : PCD) : Except (Err × PCD) PCD :=
  match processSamples fs filenames
      (samples.getD ((clear_cache self).label_map.map (fun p => p.1)))
      ⟨[], [], [], [], clear_cache self⟩ with
  | .error e => .error e
  | .ok acc => finalize rng acc

/-- Observable outcome of a `load` call: the published dataset on
success, the exception on failure. -/
def obs (r : Except (Err × PCD) PCD) :
    Except Err (List (String × FVal) × Option (List (List Int)) × Option (List (List Val))) :=
  match r with
  | .error (e, _) => .error e
  | .ok st => .ok (st._features, st._labels, st._weights)

/-- The exception of a failed `load` call, if any. -/
def errOf (r : Except (Err × PCD) PCD) : Option Err :=
  match r with
  | .error (e, _) => some e
  | .ok _ => none

/-- The object state carried by a failed `load` call, if any. -/
def errStateOf (r : Except (Err × PCD) PCD) : Option PCD :=
  match r with
  | .error (_, st) => some st
  | .ok _ => none

/-- The published label column flattened back to one label per event
(each published row is a singleton by `expand_dims`). -/
def pubLabels (st : PCD) : List Int := (st._labels.getD []).flatten

/-- The published weight column flattened to one weight per event. -/
def pubWeights (st : PCD) : List Val := (st._weights.getD []).flatten

/-! Concrete test fixtures: a two-sample world with one ragged and one
scalar column per jet, used by the witnesses, counterexamples and
failing-input evaluations below. -/

/-- Jet-1 record of the "sig" sample: a ragged particle column and a
scalar jet column, two events. -/
def jetColsSig : List (String × Col) :=
  [("part_pt", .ragged [[1, 2], [3]]), ("jet_pt", .scalar [10, 20])]

/-- The "sig" sample: two events. -/
def sampleSig : SampleData := ⟨2, [("j1", jetColsSig)]⟩

/-- The "bkg" sample: one event. -/
def sampleBkg : SampleData :=
  ⟨1, [("j1", [("part_pt", .ragged [[7]]), ("jet_pt", .scalar [30])])]⟩

/-- A file system with one per-sample file for each sample. -/
def fsEx : String → Source := fun fname =>
  if fname = "sig.parquet" then .single sampleSig else .single sampleBkg

/-- A deterministic stand-in for the seeded shuffler. -/
def rngEx : ℕ → ℕ → List ℕ := fun _ n => (List.range n).reverse

/-- Per-sample input files for the fixture samples. -/
def fnEx : Filenames := .dict [("sig", "sig.parquet"), ("bkg", "bkg.parquet")]

/-- A dataset configuration over the fixtures: two samples in two
classes, one ragged feature group and one scalar feature group, one jet,
`pad_size` 3, no shuffle, no size overrides. -/
def basePCD : PCD :=
  { label_map := [("sig", 1), ("bkg", 0)],
    feature_dict := [("part_features", ["part_pt"]), ("jet_features", ["jet_pt"])],
    sample_sizes := [], num_jets := 1, pad_size := 3, shuffle := false,
    seed := 2023, _features := [], _labels := none, _weights := none,
    cache_arrays := none, cache_sample_arrays := none }

/-- The dataset published by a successful `load` over the fixtures
(recovered from the result for use in closed statements). -/
def loadedEx : PCD :=
  (load fsEx rngEx fnEx none basePCD).toOption.getD basePCD

/-- A sample whose jet-1 record lacks the configured column `part_pt`. -/
def sampleNoCol : SampleData := ⟨2, [("j1", [("jet_pt", .scalar [10, 20])])]⟩

/-- A file system serving only `sampleNoCol`. -/
def fsMiss : String → Source := fun _ => .single sampleNoCol

/-- A fixture `load` call whose second sample has no input file in the
dict, so the call fails after the first sample populated the cache. -/
def runC6 : Except (Err × PCD) PCD :=
  load fsEx rngEx (.dict [("sig", "sig.parquet")]) none basePCD

/-- The object state carried by the failing fixture call `runC6`. -/
def runC6State : PCD := (errStateOf runC6).getD basePCD

/-- Whether `needle` occurs as a contiguous subsequence of `hay` (used to
check which identifiers appear in an error message). -/
def occursIn (needle : List Char) : List Char → Bool
  | [] => needle == []
  | c :: rest => needle == (c :: rest).take needle.length || occursIn needle rest

/-- The object state a `load` result leaves behind: the published state
on success, the state at the raise point on failure. -/
def stateOf : Except (Err × PCD) PCD → PCD
  | .ok s => s
  | .error (_, s) => s

/-- The object state of a per-sample-loop result. -/
def stateOfAcc : Except (Err × PCD) Acc → PCD
  | .ok a => a.st
  | .error (_, s) => s

/-- Two object states that agree on everything except the two transient
cache fields: `load` and its helpers only ever mutate the cache until the
final publication step. -/
def CacheOnly (st st' : PCD) : Prop :=
  st'.label_map = st.label_map ∧ st'.feature_dict = st.feature_dict ∧
  st'.sample_sizes = st.sample_sizes ∧ st'.num_jets = st.num_jets ∧
  st'.pad_size = st.pad_size ∧ st'.shuffle = st.shuffle ∧
  st'.seed = st.seed ∧ st'._features = st._features ∧
  st'._labels = st._labels ∧ st'._weights = st._weights

/-- Recorded running total for class value `v` (zero when absent). -/
def sizeIn (cs : List (Int × ℕ)) (v : Int) : ℕ := (alookup cs v).getD 0

/-- Pointwise form of the weight computation: the weight an event of
label `l` ends up with after every per-class division has been applied. -/
def classWeight (cs : List (Int × ℕ)) (l : Int) : Val :=
  cs.foldl (fun w p => if l = p.1 then w / (p.2 : Val) else w) 1

/-- The loop invariant tying the label arrays to the recorded class
totals: each class value occurs in the accumulated labels exactly its
recorded number of times, and the recorded class values are distinct. -/
def LabelInv (acc : Acc) : Prop :=
  (∀ v : Int, (acc.labels.flatten).count v = sizeIn acc.classSizes v) ∧
  (acc.classSizes.map Prod.fst).Nodup

/-- The sample data the first processed sample is read from when the
cache is cold (mirroring the two branches of `_load_sample_data`). -/
def firstSampleData (fs : String → Source) (fn : Filenames)
    (sample : String) : Option SampleData :=
  match fn with
  | .str f => (getSampleSub (fs f) sample).toOption
  | .dict m => (alookup m sample).map (fun fname => sourceAsSample (fs fname))

/-- Some configured feature group lists a column that is ragged in jet
`i` of the given sample data, for some processed jet index `i`. -/
def HasRaggedColumn (fd : List (String × List String)) (nj : ℕ)
    (sa : SampleData) : Prop :=
  ∃ g cols c i jr v, (g, cols) ∈ fd ∧ c ∈ cols ∧ i ∈ List.range' 1 nj ∧
    alookup sa.jets ("j" ++ toString i) = some jr ∧
    alookup jr c = some (.ragged v)

/-- Whether a published feature-dictionary value is the mask tensor. -/
def FVal.isMask : FVal → Bool
  | .mask _ => true
  | .tensor _ => false

/-- Relation between the loop states of two string-filename runs whose
sources differ only in the content of the samples after the first: all
accumulators agree, the cached sample view agrees, and the cached sources
expose the same field names. -/
def AccRel (a1 a2 : Acc) : Prop :=
  ∃ sa sb, sourceFields sa = sourceFields sb ∧
    a2.st.cache_arrays = some sb ∧
    a1 = { a2 with st := { a2.st with cache_arrays := some sa } }

/-- Relation between the per-sample-loop results of two related runs:
both fail with the same exception (the carried states may differ in the
cached source), or both succeed with related accumulators. -/
def StepRel : Except (Err × PCD) Acc → Except (Err × PCD) Acc → Prop
  | .error (e1, _), .error (e2, _) => e1 = e2
  | .ok b1, .ok b2 => AccRel b1 b2
  | _, _ => False

/-- A combined single-file source holding both fixture samples. -/
def srcCombined : Source := .combined 3 [("sig", sampleSig), ("bkg", sampleBkg)]

/-- Entirely different "bkg" data, used to show the combined-file loader
never reads the later samples sub-records. -/
def sampleBkgAlt : SampleData :=
  ⟨2, [("j1", [("part_pt", .ragged [[9, 9, 9], [8]]),
               ("jet_pt", .scalar [40, 50])])]⟩

/-- The same combined source with the "bkg" sub-record replaced by
entirely different data. -/
def srcCombinedAlt : Source :=
  .combined 3 [("sig", sampleSig), ("bkg", sampleBkgAlt)]

/-- File system serving the combined fixture file. -/
def fsStr1 : String → Source := fun _ => srcCombined

/-- File system serving the altered combined fixture file. -/
def fsStr2 : String → Source := fun _ => srcCombinedAlt

/-- Fixture for the missing-column family: a one-event jet record that
only has the scalar column. -/
def jrOnlyJet : List (String × Col) := [("jet_pt", .scalar [4])]

/-- A minimal configuration with one sample and a single one-column
feature group, used to exercise the missing-column error path. -/
def mkSingleColPCD (sample : String) (cv : Int) (g col : String)
    (pad : ℕ) : PCD :=
  { label_map := [(sample, cv)], feature_dict := [(g, [col])],
    sample_sizes := [], num_jets := 1, pad_size := pad, shuffle := false,
    seed := 2023, _features := [], _labels := none, _weights := none,
    cache_arrays := none, cache_sample_arrays := none }

end Aliad

namespace Aliad

/-! Helper lemmas about the association-list and accumulator operations. -/

theorem alookup_cons_self {κ α : Type} [DecidableEq κ] (k : κ) (v : α)
    (rest : List (κ × α)) : alookup ((k, v) :: rest) k = some v := by
  simp [alookup]

theorem alookup_aupdate_self {κ α : Type} [DecidableEq κ] (l : List (κ × α))
    (k : κ) (v : α) : alookup (aupdate l k v) k = some v := by
  induction l with
  | nil => simp [aupdate, alookup]
  | cons p rest ih =>
    by_cases h : p.1 = k
    · simp [aupdate, h, alookup]
    · simpa [aupdate, h, alookup] using ih

theorem mem_aupdate {κ α : Type} [DecidableEq κ] (l : List (κ × α)) (k : κ)
    (v : α) (p : κ × α) (hp : p ∈ aupdate l k v) : p = (k, v) ∨ p ∈ l := by
  induction l with
  | nil => simpa [aupdate] using hp
  | cons q rest ih =>
    by_cases h : q.1 = k
    · rcases (by simpa [aupdate, h] using hp : p = (k, v) ∨ p ∈ rest) with h1 | h1
      · exact Or.inl h1
      · exact Or.inr (List.mem_cons_of_mem _ h1)
    · rcases (by simpa [aupdate, h] using hp : p = q ∨ p ∈ aupdate rest k v) with h1 | h1
      · exact Or.inr (h1 ▸ List.mem_cons_self _ _)
      · rcases ih h1 with h2 | h2
        · exact Or.inl h2
        · exact Or.inr (List.mem_cons_of_mem _ h2)

theorem sizeIn_bump (cs : List (Int × ℕ)) (cv : Int) (n : ℕ) (v : Int) :
    sizeIn (bumpClassSize cs cv n) v = sizeIn cs v + (if v = cv then n else 0) := by
  induction cs with
  | nil =>
    by_cases h : v = cv
    · subst h
      simp [bumpClassSize, sizeIn, alookup]
    · simp [bumpClassSize, sizeIn, alookup, h, Ne.symm h]
  | cons p rest ih =>
    obtain ⟨c, s⟩ := p
    by_cases h : c = cv
    · subst h
      by_cases hv : v = c
      · subst hv
        simp [bumpClassSize, sizeIn, alookup]
      · have hcv : ¬ c = v := fun hh => hv hh.symm
        simp [bumpClassSize, sizeIn, alookup, hcv, hv]
    · by_cases hv : c = v
      · have hvcv : ¬ v = cv := fun hh => h (hv.trans hh)
        simp [bumpClassSize, sizeIn, alookup, h, hv, hvcv]
      · simpa [bumpClassSize, sizeIn, alookup, h, hv] using ih

theorem keys_bump (cs : List (Int × ℕ)) (cv : Int) (n : ℕ) :
    (bumpClassSize cs cv n).map Prod.fst =
      (if cv ∈ cs.map Prod.fst then cs.map Prod.fst
       else cs.map Prod.fst ++ [cv]) := by
  induction cs with
  | nil => simp [bumpClassSize]
  | cons p rest ih =>
    by_cases h : p.1 = cv
    · simp [bumpClassSize, h]
    · have hne : ¬ cv = p.1 := fun hh => h hh.symm
      by_cases hm : cv ∈ rest.map Prod.fst
      · simp [bumpClassSize, h, ih, hm, hne]
      · simp [bumpClassSize, h, ih, hm, hne]

theorem nodup_keys_bump (cs : List (Int × ℕ)) (cv : Int) (n : ℕ)
    (h : (cs.map Prod.fst).Nodup) :
    ((bumpClassSize cs cv n).map Prod.fst).Nodup := by
  rw [keys_bump]
  by_cases hm : cv ∈ cs.map Prod.fst
  · simpa [hm] using h
  · simp only [hm, if_false]
    refine List.Nodup.append h (List.nodup_singleton cv) ?_
    intro x hx hx'
    have : x = cv := by simpa using hx'
    exact hm (this ▸ hx)

theorem dedup_length_one {l : List ℕ} (h : l.dedup.length = 1) :
    ∀ x ∈ l, x = l.headD 0 := by
  obtain ⟨a, ha⟩ := List.length_eq_one.mp h
  have hall : ∀ x ∈ l, x = a := by
    intro x hx
    have hd : x ∈ l.dedup := List.mem_dedup.mpr hx
    rw [ha] at hd
    simpa using hd
  intro x hx
  cases l with
  | nil => cases hx
  | cons y ys =>
    have hy : y = a := hall y (List.mem_cons_self _ _)
    have : x = a := hall x hx
    simp [this, hy]

theorem getD_map_of_lt {α β : Type} (f : α → β) (l : List α) (i : ℕ) (d : α)
    (e : β) (h : i < l.length) : (l.map f).getD i e = f (l.getD i d) := by
  rw [List.getD_eq_getElem _ _ (by simpa using h), List.getElem_map,
    List.getD_eq_getElem _ _ h]

theorem flatten_map_singleton {α : Type} (l : List α) :
    (l.map (fun x => [x])).flatten = l := by
  induction l with
  | nil => rfl
  | cons x xs ih => simp [ih]

/-! State-preservation lemmas: until publication, `load` and its helpers
only mutate the cache fields. -/

theorem cacheOnly_refl (st : PCD) : CacheOnly st st :=
  ⟨rfl, rfl, rfl, rfl, rfl, rfl, rfl, rfl, rfl, rfl⟩

theorem cacheOnly_trans {a b c : PCD} (h1 : CacheOnly a b) (h2 : CacheOnly b c) :
    CacheOnly a c := by
  obtain ⟨e1, e2, e3, e4, e5, e6, e7, e8, e9, e10⟩ := h1
  obtain ⟨f1, f2, f3, f4, f5, f6, f7, f8, f9, f10⟩ := h2
  exact ⟨f1.trans e1, f2.trans e2, f3.trans e3, f4.trans e4, f5.trans e5,
    f6.trans e6, f7.trans e7, f8.trans e8, f9.trans e9, f10.trans e10⟩

theorem load_sample_data_cacheOnly (fs : String → Source) (fn : Filenames)
    (sample : String) (st : PCD) :
    CacheOnly st (stateOf (load_sample_data fs fn sample st)) := by
  rcases fn with f | m
  · rcases hca : st.cache_arrays with _ | src
    · rcases hg : getSampleSub (fs f) sample with e | sa <;>
        simp [load_sample_data, hca, hg, stateOf, CacheOnly]
    · by_cases hm : sample ∈ sourceFields src <;>
        simp [load_sample_data, hca, hm, stateOf, CacheOnly]
  · rcases hl : alookup m sample with _ | fname <;>
      simp [load_sample_data, hl, stateOf, CacheOnly]

theorem sampleStep_cacheOnly (fs : String → Source) (fn : Filenames)
    (sample : String) (acc : Acc) :
    CacheOnly acc.st (stateOfAcc (sampleStep fs fn sample acc)) := by
  rcases hl : alookup acc.st.label_map sample with _ | cv
  · simp [sampleStep, hl, stateOfAcc, CacheOnly]
  · have h1 := load_sample_data_cacheOnly fs fn sample acc.st
    rcases hld : load_sample_data fs fn sample acc.st with ⟨e, st2⟩ | st
    · rw [hld] at h1
      simpa [sampleStep, hl, hld, stateOfAcc, stateOf] using h1
    · rw [hld] at h1
      simp only [stateOf] at h1
      rcases hcs : st.cache_sample_arrays with _ | sa
      · simpa [sampleStep, hl, hld, hcs, stateOfAcc] using h1
      · rcases hrs : resolveSampleSize st.sample_sizes sample sa.len with e | ss
        · simpa [sampleStep, hl, hld, hcs, hrs, stateOfAcc] using h1
        · rcases hpg : processGroups sa st.pad_size ss st.num_jets
              st.feature_dict acc.features none with e | ⟨feats, mopt⟩
          · simpa [sampleStep, hl, hld, hcs, hrs, hpg, stateOfAcc] using h1
          · simpa [sampleStep, hl, hld, hcs, hrs, hpg, stateOfAcc] using h1

theorem processSamples_cacheOnly (fs : String → Source) (fn : Filenames)
    (ss : List String) : ∀ acc : Acc,
    CacheOnly acc.st (stateOfAcc (processSamples fs fn ss acc)) := by
  induction ss with
  | nil =>
    intro acc
    simpa [processSamples, stateOfAcc] using cacheOnly_refl acc.st
  | cons s rest ih =>
    intro acc
    have h1 := sampleStep_cacheOnly fs fn s acc
    rcases h : sampleStep fs fn s acc with ⟨e, st2⟩ | acc'
    · rw [h] at h1
      simpa [processSamples, h, stateOfAcc] using h1
    · rw [h] at h1
      simp only [stateOfAcc] at h1
      have h2 := ih acc'
      simpa [processSamples, h] using cacheOnly_trans h1 h2

/-! Inversion lemmas for the combination and publication step. -/

theorem afterChecks_errState (rng : ℕ → ℕ → List ℕ) (st : PCD)
    (concd : List (String × Tensor)) (sizes0 : ℕ) (labels : List Int)
    (maskOpt : Option Mask3) (cs : List (Int × ℕ)) (e : Err) (st2 : PCD)
    (h : afterChecks rng st concd sizes0 labels maskOpt cs = .error (e, st2)) :
    e = .unboundLocal "weights" ∧ st2 = st ∧ st.shuffle = true := by
  cases hsh : st.shuffle with
  | true =>
    simp only [afterChecks, hsh, if_true] at h
    injection h with h1
    injection h1 with ha hb
    exact ⟨ha.symm, hb.symm, rfl⟩
  | false =>
    simp [afterChecks, hsh] at h

theorem afterChecks_ok_inv (rng : ℕ → ℕ → List ℕ) (st : PCD)
    (concd : List (String × Tensor)) (sizes0 : ℕ) (labels : List Int)
    (maskOpt : Option Mask3) (cs : List (Int × ℕ)) (st' : PCD)
    (h : afterChecks rng st concd sizes0 labels maskOpt cs = .ok st') :
    st.shuffle = false ∧
    st' = { st with
      _features := publishedFeatures concd maskOpt,
      _labels := some (labels.map (fun l => [l])),
      _weights := some ((applyClassWeights labels cs).map (fun w => [w])),
      cache_arrays := none, cache_sample_arrays := none } := by
  cases hsh : st.shuffle with
  | true => simp [afterChecks, hsh] at h
  | false =>
    simp only [afterChecks, hsh, Bool.false_eq_true, if_false] at h
    injection h with h1
    exact ⟨rfl, h1.symm⟩

theorem finalize_errState (rng : ℕ → ℕ → List ℕ) (acc : Acc) (e : Err)
    (st2 : PCD) (h : finalize rng acc = .error (e, st2)) : st2 = acc.st := by
  unfold finalize at h
  split at h
  · injection h with h1
    injection h1 with _ hb
    exact hb.symm
  · split at h
    · injection h with h1
      injection h1 with _ hb
      exact hb.symm
    · split at h
      · split at h
        · split at h
          · injection h with h1
            injection h1 with _ hb
            exact hb.symm
          · exact (afterChecks_errState _ _ _ _ _ _ _ _ _ h).2.1
          · split at h
            · exact (afterChecks_errState _ _ _ _ _ _ _ _ _ h).2.1
            · injection h with h1
              injection h1 with _ hb
              exact hb.symm
        · injection h with h1
          injection h1 with _ hb
          exact hb.symm
      · injection h with h1
        injection h1 with _ hb
        exact hb.symm

theorem finalize_ok_inv (rng : ℕ → ℕ → List ℕ) (acc : Acc) (st' : PCD)
    (h : finalize rng acc = .ok st') :
    ∃ concd maskOpt,
      concatAll acc.features = .ok concd ∧
      concatMasksOpt acc.masks = .ok maskOpt ∧
      acc.st.shuffle = false ∧
      (∀ p ∈ concd, (p.2 : Tensor).events = (acc.labels.flatten).length) ∧
      (∀ m, maskOpt = some m → m.length = (acc.labels.flatten).length) ∧
      st' = { acc.st with
        _features := publishedFeatures concd maskOpt,
        _labels := some ((acc.labels.flatten).map (fun l => [l])),
        _weights := some ((applyClassWeights (acc.labels.flatten)
          acc.classSizes).map (fun w => [w])),
        cache_arrays := none, cache_sample_arrays := none } := by
  unfold finalize at h
  split at h
  · exact absurd h (by simp)
  rename_i concd hca
  split at h
  · exact absurd h (by simp)
  rename_i l0 lrest hlab
  split at h
  case isFalse => exact absurd h (by simp)
  rename_i hd
  split at h
  case isFalse => exact absurd h (by simp)
  rename_i hh
  have hsz : ∀ p ∈ concd, (p.2 : Tensor).events = (acc.labels.flatten).length := by
    intro p hp
    have hmem : p.2.events ∈ concd.map (fun q => q.2.events) :=
      List.mem_map_of_mem _ hp
    have := dedup_length_one hd _ hmem
    rw [this, hh, hlab]
  split at h
  · exact absurd h (by simp)
  · rename_i hcm
    obtain ⟨hsh, hst⟩ := afterChecks_ok_inv _ _ _ _ _ _ _ _ h
    refine ⟨concd, none, hca, hcm, hsh, hsz, by simp, ?_⟩
    rw [hst, hlab]
  · rename_i m hcm
    split at h
    case isFalse => exact absurd h (by simp)
    rename_i hm
    obtain ⟨hsh, hst⟩ := afterChecks_ok_inv _ _ _ _ _ _ _ _ h
    refine ⟨concd, some m, hca, hcm, hsh, hsz, ?_, ?_⟩
    · intro m' hm'
      have hmm : m' = m := by
        injection hm' with hmm
        exact hmm.symm
      rw [hmm, hm, hh, hlab]
    · rw [hst, hlab]

/-- Inversion of one successful per-sample iteration. -/
theorem sampleStep_ok_inv (fs : String → Source) (fn : Filenames)
    (sample : String) (acc acc' : Acc)
    (h : sampleStep fs fn sample acc = .ok acc') :
    ∃ cv st sa ss feats mopt,
      alookup acc.st.label_map sample = some cv ∧
      load_sample_data fs fn sample acc.st = .ok st ∧
      st.cache_sample_arrays = some sa ∧
      resolveSampleSize st.sample_sizes sample sa.len = .ok ss ∧
      processGroups sa st.pad_size ss st.num_jets st.feature_dict
        acc.features none = .ok (feats, mopt) ∧
      acc' = ⟨feats, acc.labels ++ [List.replicate ss cv],
              acc.masks ++ optToList mopt,
              bumpClassSize acc.classSizes cv ss, st⟩ := by
  unfold sampleStep at h
  split at h
  · exact absurd h (by simp)
  rename_i cv hl
  split at h
  · exact absurd h (by simp)
  rename_i st hld
  split at h
  · exact absurd h (by simp)
  rename_i sa hcs
  split at h
  · exact absurd h (by simp)
  rename_i ss hrs
  split at h
  · exact absurd h (by simp)
  rename_i feats mopt hpg
  injection h with h1
  exact ⟨cv, st, sa, ss, feats, mopt, hl, hld, hcs, hrs, hpg, h1.symm⟩

/-! Load-level inversions. -/

theorem load_errState (fs : String → Source) (rng : ℕ → ℕ → List ℕ)
    (fn : Filenames) (samples : Option (List String)) (st : PCD) (e : Err)
    (st2 : PCD) (h : load fs rng fn samples st = .error (e, st2)) :
    CacheOnly st st2 := by
  have hclear : CacheOnly st (clear_cache st) :=
    ⟨rfl, rfl, rfl, rfl, rfl, rfl, rfl, rfl, rfl, rfl⟩
  unfold load at h
  split at h
  · rename_i ep heq
    injection h with h1
    have hco := processSamples_cacheOnly fs fn
      (samples.getD ((clear_cache st).label_map.map (fun p => p.1)))
      ⟨[], [], [], [], clear_cache st⟩
    rw [heq, h1] at hco
    exact cacheOnly_trans hclear hco
  · rename_i acc heq
    have hst2 := finalize_errState rng acc e st2 h
    have hco := processSamples_cacheOnly fs fn
      (samples.getD ((clear_cache st).label_map.map (fun p => p.1)))
      ⟨[], [], [], [], clear_cache st⟩
    rw [heq] at hco
    rw [hst2]
    exact cacheOnly_trans hclear hco

theorem load_ok_inv (fs : String → Source) (rng : ℕ → ℕ → List ℕ)
    (fn : Filenames) (samples : Option (List String)) (st st' : PCD)
    (h : load fs rng fn samples st = .ok st') :
    ∃ acc, processSamples fs fn
        (samples.getD ((clear_cache st).label_map.map (fun p => p.1)))
        ⟨[], [], [], [], clear_cache st⟩ = .ok acc ∧
      finalize rng acc = .ok st' := by
  unfold load at h
  split at h
  · exact absurd h (by simp)
  · rename_i acc heq
    exact ⟨acc, heq, h⟩

/-! Weight-computation lemmas. -/

theorem zip_map_self {α β : Type} (l : List α) (g : α → β) :
    l.zip (l.map g) = l.map (fun x => (x, g x)) := by
  induction l with
  | nil => rfl
  | cons a as ih => simpa using ih

theorem applyClassWeights_foldl (labels : List Int) (cs : List (Int × ℕ)) :
    ∀ g : Int → Val,
      cs.foldl (fun ws p => (labels.zip ws).map
          (fun q => if q.1 = p.1 then q.2 / (p.2 : Val) else q.2))
        (labels.map g)
      = labels.map (fun l => cs.foldl
          (fun w p => if l = p.1 then w / (p.2 : Val) else w) (g l)) := by
  induction cs with
  | nil => intro g; simp
  | cons p rest ih =>
    intro g
    rw [List.foldl_cons, zip_map_self, List.map_map]
    have hcomp : ((fun q : Int × Val => if q.1 = p.1 then q.2 / (p.2 : Val) else q.2) ∘
        (fun x : Int => (x, g x))) =
        fun x : Int => if x = p.1 then g x / (p.2 : Val) else g x := rfl
    rw [hcomp, ih]
    simp [List.foldl_cons]

theorem applyClassWeights_eq_map (labels : List Int) (cs : List (Int × ℕ)) :
    applyClassWeights labels cs = labels.map (classWeight cs) := by
  have h := applyClassWeights_foldl labels cs (fun _ => 1)
  simpa [applyClassWeights, classWeight] using h

theorem applyClassWeights_length (labels : List Int) (cs : List (Int × ℕ)) :
    (applyClassWeights labels cs).length = labels.length := by
  rw [applyClassWeights_eq_map, List.length_map]

theorem classWeight_notin (cs : List (Int × ℕ)) (v : Int) (w0 : Val)
    (h : v ∉ cs.map Prod.fst) :
    cs.foldl (fun w p => if v = p.1 then w / (p.2 : Val) else w) w0 = w0 := by
  induction cs generalizing w0 with
  | nil => rfl
  | cons p rest ih =>
    have h1 : ¬ v = p.1 := fun hh => h (by simp [hh])
    rw [List.foldl_cons, if_neg h1]
    exact ih w0 (fun hm => h (List.mem_cons_of_mem _ hm))

theorem classWeight_lookup (cs : List (Int × ℕ)) (v : Int) (sz : ℕ)
    (hnod : (cs.map Prod.fst).Nodup) (h : alookup cs v = some sz) :
    classWeight cs v = 1 / (sz : Val) := by
  induction cs with
  | nil => simp [alookup] at h
  | cons p rest ih =>
    rw [List.map_cons] at hnod
    obtain ⟨hout, hnod'⟩ := List.nodup_cons.mp hnod
    by_cases hp : p.1 = v
    · have hsz : p.2 = sz := by
        have := h
        simp only [alookup, hp, if_pos] at this
        injection this
      have hv : v = p.1 := hp.symm
      have hnotin : v ∉ rest.map Prod.fst := hv ▸ hout
      unfold classWeight
      rw [List.foldl_cons, if_pos hv, hsz]
      have := classWeight_notin rest v (1 / (sz : Val)) hnotin
      simpa [one_div] using this
    · have h' : alookup rest v = some sz := by
        simpa [alookup, hp] using h
      have hv : ¬ v = p.1 := fun hh => hp hh.symm
      have := ih hnod' h'
      unfold classWeight at this ⊢
      rw [List.foldl_cons, if_neg hv]
      exact this

/-! Loop-invariant preservation. -/

theorem sampleStep_labelInv (fs : String → Source) (fn : Filenames)
    (sample : String) (acc acc' : Acc)
    (h : sampleStep fs fn sample acc = .ok acc') (hinv : LabelInv acc) :
    LabelInv acc' := by
  obtain ⟨cv, st, sa, ss, feats, mopt, _, _, _, _, _, hacc⟩ :=
    sampleStep_ok_inv _ _ _ _ _ h
  obtain ⟨hcount, hnod⟩ := hinv
  rw [hacc]
  constructor
  · intro v
    simp only [LabelInv]
    rw [List.flatten_append]
    simp only [List.flatten_cons, List.flatten_nil, List.append_nil]
    rw [List.count_append, hcount v, sizeIn_bump, List.count_replicate]
    by_cases hv : v = cv
    · subst hv
      simp
    · have hcv : ¬ cv = v := fun hh => hv hh.symm
      simp [hv, hcv]
  · exact nodup_keys_bump _ _ _ hnod

theorem processSamples_labelInv (fs : String → Source) (fn : Filenames)
    (ss : List String) : ∀ acc acc',
    processSamples fs fn ss acc = .ok acc' → LabelInv acc → LabelInv acc' := by
  induction ss with
  | nil =>
    intro acc acc' h hinv
    have : acc = acc' := by
      simpa [processSamples] using h
    exact this ▸ hinv
  | cons s rest ih =>
    intro acc acc' h hinv
    unfold processSamples at h
    rcases hstep : sampleStep fs fn s acc with ep | acc1
    · rw [hstep] at h
      simp at h
    · rw [hstep] at h
      exact ih acc1 acc' h (sampleStep_labelInv _ _ _ _ _ hstep hinv)

theorem processSamples_masks_nonempty (fs : String → Source) (fn : Filenames)
    (ss : List String) : ∀ acc acc',
    processSamples fs fn ss acc = .ok acc' → acc.masks ≠ [] → acc'.masks ≠ [] := by
  induction ss with
  | nil =>
    intro acc acc' h hne
    have : acc = acc' := by
      simpa [processSamples] using h
    exact this ▸ hne
  | cons s rest ih =>
    intro acc acc' h hne
    unfold processSamples at h
    rcases hstep : sampleStep fs fn s acc with ep | acc1
    · rw [hstep] at h
      simp at h
    · rw [hstep] at h
      obtain ⟨cv, st, sa, ss', feats, mopt, _, _, _, _, _, hacc⟩ :=
        sampleStep_ok_inv _ _ _ _ _ hstep
      refine ih acc1 acc' h ?_
      rw [hacc]
      simp only []
      intro hcontra
      exact hne (List.append_eq_nil.mp hcontra).1

/-- C1 counterexample.  For the ragged input `[[5]]` padded to 2 slots,
slot 0 of event 0 holds real data (the pre-truncation element 0 exists)
yet the produced mask entry is `false`, while the padding slot 1 is
`true`: the mask marks padding, not real data, so the claimed polarity
(true iff the element existed) fails at this input. -/
theorem get_mask_array_polarity_counterexample :
    ((get_mask_array [[(5 : Val)]] 2 none).getD 0 []).getD 0 true = false ∧
    ((get_mask_array [[(5 : Val)]] 2 none).getD 0 []).getD 1 false = true ∧
    ¬ ((((get_mask_array [[(5 : Val)]] 2 none).getD 0 []).getD 0 false = true) ↔
        0 < [(5 : Val)].length) := by
  decide

/-- C1 amended.  For every ragged column padded to `pad_size`, the mask
entry at event `i`, slot `k` is `true` iff the `k`-th pre-truncation
element did NOT exist for that event (true marks padding, false marks
real data), for `pad_size` both larger and smaller than the longest
per-event sequence. -/
theorem get_mask_array_marks_padding (v : List (List Val)) (pad : ℕ)
    (ss : Option ℕ) (i k : ℕ) (hi : i < (applySampleSize v ss).length)
    (hk : k < pad) :
    (((get_mask_array v pad ss).getD i []).getD k false = true ↔
      ¬ (k < ((applySampleSize v ss).getD i []).length)) := by
  have hi' : i < ((applySampleSize v ss).map
      (fun xs => (List.range pad).map (fun j => decide (xs.length ≤ j)))).length := by
    simpa using hi
  have hrow : (get_mask_array v pad ss).getD i [] =
      (List.range pad).map
        (fun j => decide (((applySampleSize v ss).getD i []).length ≤ j)) := by
    rw [get_mask_array, List.getD_eq_getElem _ _ hi', List.getElem_map,
      List.getD_eq_getElem _ _ hi]
  have hk' : k < ((List.range pad).map
      (fun j => decide (((applySampleSize v ss).getD i []).length ≤ j))).length := by
    simpa using hk
  rw [hrow, List.getD_eq_getElem _ _ hk', List.getElem_map, List.getElem_range,
    decide_eq_true_iff]
  exact ⟨fun h => Nat.not_lt.mpr h, fun h => Nat.not_lt.mp h⟩

/-- C1 amended, witness at the concrete input `[[5]]`, `pad_size = 2`. -/
theorem get_mask_array_marks_padding_witness :
    (((get_mask_array [[(5 : Val)]] 2 none).getD 0 []).getD 0 false = true ↔
      ¬ (0 < ((applySampleSize [[(5 : Val)]] (none : Option ℕ)).getD 0 []).length)) :=
  get_mask_array_marks_padding [[(5 : Val)]] 2 none 0 0 (by decide) (by decide)

/-- C2 failing input.  On the fixture configuration with `shuffle` on
(and data on which the non-shuffled `load` succeeds), `load` raises
`UnboundLocalError` for `weights`: the shuffle branch reads the local
`weights` (line 191) before it is first assigned (line 196), so no
shuffled dataset is ever published. -/
theorem load_shuffle_raises_unbound_weights :
    errOf (load fsEx rngEx fnEx none { basePCD with shuffle := true }) =
      some (.unboundLocal "weights") := by
  rfl

/-- C3 failing input.  With 2 events available for "sig": requesting a
SMALLER override (1) raises the "can not request more events than is
available" error, while requesting a LARGER override (5) passes the check,
adopts the unavailable size and only fails later with an
inconsistent-size error — the opposite of the claimed behaviour in both
directions (the comparison on line 122 is inverted). -/
theorem load_size_override_check_is_inverted :
    errOf (load fsEx rngEx fnEx none { basePCD with sample_sizes := [("sig", 1)] }) =
      some (.runtimeError "can not request more events than is available for the sample \"sig\" (requested = 1, available = 2") ∧
    errOf (load fsEx rngEx fnEx none { basePCD with sample_sizes := [("sig", 5)] }) =
      some (.runtimeError "inconsistent sample size between features and labels") := by
  exact ⟨rfl, rfl⟩

/-- C6 counterexample.  A fixture `load` that fails (second sample has no
input file) exits with the per-sample cache still holding the first
sample loaded file: the cache is NOT cleared on the error path (there
is no try/finally around the loop; `clear_cache` runs only at entry and
after successful publication). -/
theorem load_error_leaves_cache_populated :
    errOf runC6 = some (.valueError "no input file specified for the sample \"bkg\"") ∧
    (errStateOf runC6).map PCD.cache_arrays = some (some (.single sampleSig)) := by
  exact ⟨rfl, rfl⟩

/-- C7 counterexample.  When the configured column `part_pt` is absent
from jet `j1` of sample "sig", `load` propagates the array library
field-lookup failure: the error carries (and its message names) only the
missing column — neither the sample name nor the jet key appears in it. -/
theorem load_missing_column_error_names_only_column :
    errOf (load fsMiss rngEx fnEx none basePCD) = some (.fieldNotFound "part_pt") ∧
    occursIn "part_pt".toList (Err.message (.fieldNotFound "part_pt")).toList = true ∧
    occursIn "sig".toList (Err.message (.fieldNotFound "part_pt")).toList = false ∧
    occursIn "j1".toList (Err.message (.fieldNotFound "part_pt")).toList = false := by
  refine ⟨rfl, by decide, by decide, by decide⟩

/-- C4.  In every dataset published by `load` all feature-dictionary
entries (the group tensors and the mask tensor), the label column and the
weight column share the same leading event-axis length; and whenever
`load` raises instead (in particular on the inconsistent-sample-size
checks), no partial dataset is published — the previously published state
is untouched. -/
theorem load_published_event_counts_consistent (fs : String → Source)
    (rng : ℕ → ℕ → List ℕ) (fn : Filenames) (samples : Option (List String))
    (st : PCD) :
    (∀ st', load fs rng fn samples st = .ok st' →
      (∀ p ∈ st'._features, p.2.events = (st'._labels.getD []).length) ∧
      (st'._weights.getD []).length = (st'._labels.getD []).length) ∧
    (∀ e st2, load fs rng fn samples st = .error (e, st2) →
      st2._features = st._features ∧ st2._labels = st._labels ∧
      st2._weights = st._weights) := by
  constructor
  · intro st' h
    obtain ⟨acc, hps, hfin⟩ := load_ok_inv _ _ _ _ _ _ h
    obtain ⟨concd, maskOpt, hca, hcm, hsh, hsz, hmlen, hst⟩ :=
      finalize_ok_inv _ _ _ hfin
    rw [hst]
    simp only [Option.getD, List.length_map]
    constructor
    · intro p hp
      rcases maskOpt with _ | m
      · simp only [publishedFeatures] at hp
        obtain ⟨q, hq, hqp⟩ := List.mem_map.mp hp
        rw [← hqp]
        exact hsz q hq
      · simp only [publishedFeatures] at hp
        rcases mem_aupdate _ _ _ _ hp with hcase | hcase
        · rw [hcase]
          exact hmlen m rfl
        · obtain ⟨q, hq, hqp⟩ := List.mem_map.mp hcase
          rw [← hqp]
          exact hsz q hq
    · rw [applyClassWeights_length]
  · intro e st2 h
    have hco := load_errState _ _ _ _ _ _ _ h
    exact ⟨hco.2.2.2.2.2.2.2.1, hco.2.2.2.2.2.2.2.2.1,
      hco.2.2.2.2.2.2.2.2.2⟩

/-- C4, witness: the fixture run publishes a dataset, and its weight and
label columns have the same length. -/
theorem load_published_event_counts_consistent_witness :
    (loadedEx._weights.getD []).length = (loadedEx._labels.getD []).length :=
  ((load_published_event_counts_consistent fsEx rngEx fnEx none basePCD).1
    loadedEx (by rfl)).2

/-- C5.  In every published dataset, an event whose class value is `v`
has weight exactly `1 / N_v` where `N_v` is the total number of published
events of class `v`, and the weights of each nonempty class sum to
exactly 1 (the model computes in exact rational arithmetic). -/
theorem load_weights_inverse_class_frequency (fs : String → Source)
    (rng : ℕ → ℕ → List ℕ) (fn : Filenames) (samples : Option (List String))
    (st st' : PCD) (h : load fs rng fn samples st = .ok st') (v : Int) :
    (∀ i, i < (pubLabels st').length → (pubLabels st').getD i 0 = v →
      (pubWeights st').getD i 0 = 1 / (((pubLabels st').count v : ℕ) : Val)) ∧
    (0 < (pubLabels st').count v →
      ((((pubLabels st').zip (pubWeights st')).filter
        (fun p => p.1 = v)).map (fun p => p.2)).sum = 1) := by
  obtain ⟨acc, hps, hfin⟩ := load_ok_inv _ _ _ _ _ _ h
  obtain ⟨concd, maskOpt, hca, hcm, hsh, hsz, hmlen, hst⟩ :=
    finalize_ok_inv _ _ _ hfin
  have hinv : LabelInv acc := by
    refine processSamples_labelInv _ _ _ _ _ hps ?_
    exact ⟨fun v => by simp [sizeIn, alookup], by simp⟩
  obtain ⟨hcount, hnod⟩ := hinv
  have hlab : pubLabels st' = acc.labels.flatten := by
    rw [hst]
    simp only [pubLabels, Option.getD]
    exact flatten_map_singleton _
  have hwts : pubWeights st' = (acc.labels.flatten).map
      (classWeight acc.classSizes) := by
    rw [hst]
    simp only [pubWeights, Option.getD]
    rw [flatten_map_singleton, applyClassWeights_eq_map]
  have hlook : ∀ w : Int, 0 < (acc.labels.flatten).count w →
      alookup acc.classSizes w = some ((acc.labels.flatten).count w) := by
    intro w hw
    have hsize := hcount w
    rcases hal : alookup acc.classSizes w with _ | sz
    · rw [sizeIn, hal] at hsize
      simp at hsize
      omega
    · rw [sizeIn, hal] at hsize
      simp at hsize
      rw [hsize]
  have hcw : ∀ w : Int, 0 < (acc.labels.flatten).count w →
      classWeight acc.classSizes w =
        1 / (((acc.labels.flatten).count w : ℕ) : Val) :=
    fun w hw => classWeight_lookup _ _ _ hnod (hlook w hw)
  constructor
  · intro i hi hv
    rw [hlab] at hi hv
    rw [hlab, hwts]
    rw [getD_map_of_lt _ _ _ 0 _ hi, hv]
    refine hcw v ?_
    have hvmem : v ∈ acc.labels.flatten := by
      rw [← hv, List.getD_eq_getElem _ _ hi]
      exact List.getElem_mem _
    exact List.count_pos_iff.mpr hvmem
  · intro hpos
    rw [hlab] at hpos
    rw [hlab, hwts, zip_map_self]
    rw [List.filter_map, List.map_map]
    have hfe : (fun p : Int × Val => decide (p.1 = v)) ∘
        (fun x : Int => (x, classWeight acc.classSizes x)) =
        fun x : Int => decide (x = v) := rfl
    rw [hfe]
    have hfilter : (acc.labels.flatten).filter (fun x => decide (x = v)) =
        List.replicate ((acc.labels.flatten).count v) v := by
      rw [← List.filter_eq]
    rw [hfilter]
    have hmapped : (List.replicate ((acc.labels.flatten).count v) v).map
        ((fun p : Int × Val => p.2) ∘
          (fun x : Int => (x, classWeight acc.classSizes x))) =
        List.replicate ((acc.labels.flatten).count v)
          (classWeight acc.classSizes v) := by
      rw [List.map_replicate]
      rfl
    rw [hmapped, List.sum_replicate, hcw v hpos]
    have hne : (((acc.labels.flatten).count v : ℕ) : Val) ≠ 0 := by
      exact_mod_cast Nat.pos_iff_ne_zero.mp hpos
    rw [nsmul_eq_mul]
    field_simp

/-- C5, witness: in the fixture run, event 0 has class 1 and weight
exactly one half (class 1 contributes two events). -/
theorem load_weights_inverse_class_frequency_witness :
    (pubWeights loadedEx).getD 0 0 =
      1 / (((pubLabels loadedEx).count 1 : ℕ) : Val) :=
  ((load_weights_inverse_class_frequency fsEx rngEx fnEx none basePCD loadedEx
    (by rfl) 1).1) 0 (by decide) (by decide)

/-- C6 amended.  Whenever `load` raises, the previously published dataset
state (`_features`, `_labels`, `_weights`) is left unchanged; the
transient per-sample cache is cleared at the start of every `load` call
and on successful completion, but on an error exit it retains the data
loaded during the failed call (there is no try/finally). -/
theorem load_error_preserves_published_state (fs : String → Source)
    (rng : ℕ → ℕ → List ℕ) (fn : Filenames) (samples : Option (List String))
    (st : PCD) :
    (∀ e st2, load fs rng fn samples st = .error (e, st2) →
      st2._features = st._features ∧ st2._labels = st._labels ∧
      st2._weights = st._weights) ∧
    (∀ st', load fs rng fn samples st = .ok st' →
      st'.cache_arrays = none ∧ st'.cache_sample_arrays = none) := by
  constructor
  · intro e st2 h
    have hco := load_errState _ _ _ _ _ _ _ h
    exact ⟨hco.2.2.2.2.2.2.2.1, hco.2.2.2.2.2.2.2.2.1,
      hco.2.2.2.2.2.2.2.2.2⟩
  · intro st' h
    obtain ⟨acc, hps, hfin⟩ := load_ok_inv _ _ _ _ _ _ h
    obtain ⟨concd, maskOpt, hca, hcm, hsh, hsz, hmlen, hst⟩ :=
      finalize_ok_inv _ _ _ hfin
    rw [hst]
    exact ⟨rfl, rfl⟩

/-- C6 amended, witness: the failing fixture call leaves the published
state untouched, and the successful fixture call leaves the cache
cleared. -/
theorem load_error_preserves_published_state_witness :
    (runC6State._features = basePCD._features ∧
     runC6State._labels = basePCD._labels ∧
     runC6State._weights = basePCD._weights) ∧
    (loadedEx.cache_arrays = none ∧ loadedEx.cache_sample_arrays = none) := by
  constructor
  · exact (load_error_preserves_published_state fsEx rngEx
      (.dict [("sig", "sig.parquet")]) none basePCD).1
      (.valueError "no input file specified for the sample \"bkg\"")
      runC6State (by rfl)
  · exact (load_error_preserves_published_state fsEx rngEx fnEx none
      basePCD).2 loadedEx (by rfl)

/-- C7 amended.  For every configuration of the single-sample,
single-column family in which the configured column is absent from the
jet-1 record of the sample file, `load` fails — but with the array
library field-lookup error, which identifies only the missing column
(the sample name and jet key are not part of the error; see the
counterexample for the message contents). -/
theorem load_missing_column_raises_field_error (fs : String → Source)
    (rng : ℕ → ℕ → List ℕ) (fname sample g col : String) (cv : Int)
    (len : ℕ) (jr : List (String × Col)) (pad : ℕ)
    (hfs : fs fname = .single ⟨len, [("j1", jr)]⟩)
    (hcol : alookup jr col = none) :
    errOf (load fs rng (.dict [(sample, fname)]) (some [sample])
      (mkSingleColPCD sample cv g col pad)) = some (.fieldNotFound col) := by
  have hj : ("j" ++ toString (1 : ℕ)) = "j1" := by decide
  simp [load, clear_cache, processSamples, sampleStep, mkSingleColPCD,
    load_sample_data, resolveSampleSize, processGroups, processJets,
    processColumns, alookup, sourceAsSample, hfs, hcol, hj, errOf,
    List.range']

/-- C7 amended, witness at a concrete missing-column configuration. -/
theorem load_missing_column_raises_field_error_witness :
    errOf (load (fun _ => .single ⟨1, [("j1", jrOnlyJet)]⟩) rngEx
      (.dict [("sig", "f.parquet")]) (some ["sig"])
      (mkSingleColPCD "sig" 1 "part_features" "part_pt" 3)) =
      some (.fieldNotFound "part_pt") :=
  load_missing_column_raises_field_error _ _ _ _ _ _ _ _ _ _ rfl rfl

/-! Mask-propagation lemmas for C10. -/

theorem firstMask_isSome (macc : Option (List (List Bool)))
    (m : List (List Bool)) : (firstMask macc m).isSome := by
  cases macc <;> rfl

theorem processColumns_isSome (sa : SampleData) (jk : String) (pad ss : ℕ)
    (cols : List String) : ∀ macc as m,
    processColumns sa jk pad ss cols macc = .ok (as, m) →
    (macc.isSome ∨ ∃ c ∈ cols, ∃ jr v, alookup sa.jets jk = some jr ∧
      alookup jr c = some (.ragged v)) →
    m.isSome := by
  induction cols with
  | nil =>
    intro macc as m h hd
    have hm : m = macc := by
      simp [processColumns] at h
      exact h.2.symm
    rcases hd with hs | ⟨c, hc, _⟩
    · exact hm ▸ hs
    · cases hc
  | cons c0 cs ih =>
    intro macc as m h hd
    unfold processColumns at h
    split at h
    · exact absurd h (by simp)
    rename_i jetRec hjr
    split at h
    · exact absurd h (by simp)
    · rename_i v hcv
      split at h
      · exact absurd h (by simp)
      rename_i as' m' hrec
      injection h with h1
      have hm : m = m' := by
        have := congrArg Prod.snd h1
        simpa using this.symm
      rw [hm]
      exact ih _ _ _ hrec (Or.inl (firstMask_isSome _ _))
    · rename_i v hcv
      split at h
      · exact absurd h (by simp)
      rename_i as' m' hrec
      injection h with h1
      have hm : m = m' := by
        have := congrArg Prod.snd h1
        simpa using this.symm
      rw [hm]
      refine ih _ _ _ hrec ?_
      rcases hd with hs | ⟨c, hc, jr, v', hjr', hcv'⟩
      · exact Or.inl hs
      · rcases List.mem_cons.mp hc with hceq | hcs
        · subst hceq
          have hjj : jr = jetRec := by
            rw [hjr'] at hjr
            injection hjr
          rw [hjj] at hcv'
          rw [hcv'] at hcv
          exact absurd hcv (by simp)
        · exact Or.inr ⟨c, hcs, jr, v', hjr', hcv'⟩

theorem processJets_masks_nonempty (sa : SampleData) (pad ss : ℕ)
    (cols : List String) : ∀ (is : List ℕ) stks jms,
    processJets sa pad ss cols is = .ok (stks, jms) →
    (∃ i ∈ is, ∃ c ∈ cols, ∃ jr v,
      alookup sa.jets ("j" ++ toString i) = some jr ∧
      alookup jr c = some (.ragged v)) →
    jms ≠ [] := by
  intro is
  induction is with
  | nil =>
    intro stks jms h hd
    obtain ⟨i, hi, _⟩ := hd
    cases hi
  | cons i0 is' ih =>
    intro stks jms h hd
    rcases hpc : processColumns sa ("j" ++ toString i0) pad ss cols none
        with e | ⟨arrs, maskOpt⟩
    · have heq : processJets sa pad ss cols (i0 :: is') = .error e := by
        simp [processJets, hpc]
      rw [heq] at h
      exact absurd h (by simp)
    · rcases hsl : stackLast arrs with e | stk
      · have heq : processJets sa pad ss cols (i0 :: is') = .error e := by
          simp [processJets, hpc, hsl]
        rw [heq] at h
        exact absurd h (by simp)
      · rcases hrec : processJets sa pad ss cols is' with e | ⟨rest, masksRest⟩
        · have heq : processJets sa pad ss cols (i0 :: is') = .error e := by
            simp [processJets, hpc, hsl, hrec]
          rw [heq] at h
          exact absurd h (by simp)
        · have heq : processJets sa pad ss cols (i0 :: is') =
              .ok (stk :: rest, optToList maskOpt ++ masksRest) := by
            simp [processJets, hpc, hsl, hrec]
          rw [heq] at h
          injection h with h1
          have hjms : jms = optToList maskOpt ++ masksRest := by
            have := congrArg Prod.snd h1
            simpa using this.symm
          rcases maskOpt with _ | m0
          · rw [hjms]
            simp only [optToList, List.nil_append]
            refine ih _ _ hrec ?_
            obtain ⟨i, hi, c, hc, jr, v, hjr, hcv⟩ := hd
            rcases List.mem_cons.mp hi with hieq | his
            · subst hieq
              have := processColumns_isSome sa _ pad ss cols none _ _ hpc
                (Or.inr ⟨c, hc, jr, v, hjr, hcv⟩)
              simp at this
            · exact ⟨i, his, c, hc, jr, v, hjr, hcv⟩
          · rw [hjms]
            simp [optToList]

theorem processGroups_mono (sa : SampleData) (pad ss nj : ℕ) :
    ∀ (groups : List (String × List String)) feats mcur feats' m',
    processGroups sa pad ss nj groups feats mcur = .ok (feats', m') →
    mcur.isSome → m'.isSome := by
  intro groups
  induction groups with
  | nil =>
    intro feats mcur feats' m' h hs
    have : m' = mcur := by
      simp [processGroups] at h
      exact h.2.symm
    exact this ▸ hs
  | cons gc gs ih =>
    intro feats mcur feats' m' h hs
    obtain ⟨g, cols⟩ := gc
    unfold processGroups at h
    split at h
    · exact absurd h (by simp)
    rename_i stks jetMasks hpj
    split at h
    · exact absurd h (by simp)
    rename_i t hst
    split at h
    · exact ih _ _ _ _ h hs
    · rename_i m0 ms0
      split at h
      · exact absurd h (by simp)
      rename_i m3 hsm
      exact ih _ _ _ _ h (by simp)

theorem processGroups_isSome (sa : SampleData) (pad ss nj : ℕ) :
    ∀ (groups : List (String × List String)) feats mcur feats' m',
    processGroups sa pad ss nj groups feats mcur = .ok (feats', m') →
    (mcur.isSome ∨ HasRaggedColumn groups nj sa) → m'.isSome := by
  intro groups
  induction groups with
  | nil =>
    intro feats mcur feats' m' h hd
    have hm : m' = mcur := by
      simp [processGroups] at h
      exact h.2.symm
    rcases hd with hs | ⟨g, cols, c, i, jr, v, hmem, _⟩
    · exact hm ▸ hs
    · cases hmem
  | cons gc gs ih =>
    intro feats mcur feats' m' h hd
    obtain ⟨g, cols⟩ := gc
    unfold processGroups at h
    split at h
    · exact absurd h (by simp)
    rename_i stks jetMasks hpj
    split at h
    · exact absurd h (by simp)
    rename_i t hst
    split at h
    · refine ih _ _ _ _ h ?_
      rcases hd with hs | ⟨g', cols', c, i, jr, v, hmem, hc, hi, hjr, hcv⟩
      · exact Or.inl hs
      · rcases List.mem_cons.mp hmem with hgeq | hgs
        · have hcols : cols' = cols := congrArg Prod.snd hgeq
          rw [hcols] at hc
          have hcontra := processJets_masks_nonempty sa pad ss cols _ _ _ hpj
            ⟨i, hi, c, hc, jr, v, hjr, hcv⟩
          exact absurd rfl hcontra
        · exact Or.inr ⟨g', cols', c, i, jr, v, hgs, hc, hi, hjr, hcv⟩
    · rename_i m0 ms0
      split at h
      · exact absurd h (by simp)
      rename_i m3 hsm
      exact processGroups_mono sa pad ss nj gs _ _ _ _ h (by simp)

theorem concatMasksOpt_some (ms : List Mask3) (mo : Option Mask3)
    (h : concatMasksOpt ms = .ok mo) (hne : ms ≠ []) : ∃ m, mo = some m := by
  rcases ms with _ | ⟨m0, rest⟩
  · exact absurd rfl hne
  · unfold concatMasksOpt at h
    split at h
    · rename_i heq
      exact absurd heq (by simp)
    · split at h
      · exact absurd h (by simp)
      · rename_i all hcall
        injection h with h1
        exact ⟨all, h1.symm⟩

theorem load_sample_data_cold (fs : String → Source) (fn : Filenames)
    (sample : String) (st st1 : PCD) (hcache : st.cache_arrays = none)
    (h : load_sample_data fs fn sample st = .ok st1) :
    st1.cache_sample_arrays = firstSampleData fs fn sample := by
  rcases fn with f | m
  · rcases hg : getSampleSub (fs f) sample with e | sa
    · simp [load_sample_data, hcache, hg] at h
    · simp only [load_sample_data, hcache, hg] at h
      injection h with h1
      rw [← h1]
      simp [firstSampleData, hg, Except.toOption]
  · rcases hl : alookup m sample with _ | fname
    · simp [load_sample_data, hl] at h
    · simp only [load_sample_data, hl] at h
      injection h with h1
      rw [← h1]
      simp [firstSampleData, hl]

theorem sampleStep_cold_masks (fs : String → Source) (fn : Filenames)
    (sample : String) (acc acc' : Acc)
    (h : sampleStep fs fn sample acc = .ok acc')
    (hcache : acc.st.cache_arrays = none) (sa : SampleData)
    (hfsd : firstSampleData fs fn sample = some sa)
    (htrig : HasRaggedColumn acc.st.feature_dict acc.st.num_jets sa) :
    acc'.masks ≠ [] := by
  obtain ⟨cv, st, sa', ss, feats, mopt, hl, hld, hcs, hrs, hpg, hacc⟩ :=
    sampleStep_ok_inv _ _ _ _ _ h
  have hsa' : st.cache_sample_arrays = firstSampleData fs fn sample :=
    load_sample_data_cold _ _ _ _ _ hcache hld
  rw [hfsd, hcs] at hsa'
  have hsaeq : sa' = sa := by
    injection hsa'
  have hco := load_sample_data_cacheOnly fs fn sample acc.st
  rw [hld] at hco
  simp only [stateOf] at hco
  have hfd : st.feature_dict = acc.st.feature_dict := hco.2.1
  have hnj : st.num_jets = acc.st.num_jets := hco.2.2.2.1
  have hsome : mopt.isSome := by
    refine processGroups_isSome sa' st.pad_size ss st.num_jets _ _ _ _ _ hpg
      (Or.inr ?_)
    rw [hsaeq, hfd, hnj]
    exact htrig
  rw [hacc]
  rcases mopt with _ | m0
  · simp at hsome
  · simp only [optToList]
    intro hcontra
    have := (List.append_eq_nil.mp hcontra).2
    cases this

/-- C10.  Whenever a successful `load` processed a first sample whose
data has a ragged column in some configured feature group, the published
feature dictionary `X` maps the fixed key `"part_masks"` to the mask
tensor (an `FVal.mask` value) — in particular any user feature group
named `"part_masks"` is overwritten by the mask in the published dict. -/
theorem load_publishes_mask_under_part_masks_key (fs : String → Source)
    (rng : ℕ → ℕ → List ℕ) (fn : Filenames) (samples : Option (List String))
    (st st' : PCD) (s1 : String) (rest : List String) (sa : SampleData)
    (h : load fs rng fn samples st = .ok st')
    (hs : samples.getD (st.label_map.map (fun p => p.1)) = s1 :: rest)
    (hsa : firstSampleData fs fn s1 = some sa)
    (htrig : HasRaggedColumn st.feature_dict st.num_jets sa) :
    (alookup st'.X "part_masks").map FVal.isMask = some true := by
  obtain ⟨acc, hps, hfin⟩ := load_ok_inv _ _ _ _ _ _ h
  have hclm : (clear_cache st).label_map = st.label_map := rfl
  rw [hclm, hs] at hps
  unfold processSamples at hps
  split at hps
  · exact absurd hps (by simp)
  · rename_i acc1 hstep
    have hne1 : acc1.masks ≠ [] := by
      refine sampleStep_cold_masks _ _ _ _ _ hstep rfl sa hsa ?_
      exact htrig
    have hne : acc.masks ≠ [] :=
      processSamples_masks_nonempty _ _ _ _ _ hps hne1
    obtain ⟨concd, maskOpt, hca, hcm, hsh, hsz, hmlen, hst⟩ :=
      finalize_ok_inv _ _ _ hfin
    obtain ⟨m, hmeq⟩ := concatMasksOpt_some _ _ hcm hne
    rw [hst]
    simp only [PCD.X, hmeq, publishedFeatures]
    rw [alookup_aupdate_self]
    rfl

/-- C10, witness: the fixture run has a ragged column in the first
sample, and its published `X` maps `"part_masks"` to the mask tensor. -/
theorem load_publishes_mask_under_part_masks_key_witness :
    (alookup loadedEx.X "part_masks").map FVal.isMask = some true :=
  load_publishes_mask_under_part_masks_key fsEx rngEx fnEx none basePCD
    loadedEx "sig" ["bkg"] sampleSig (by rfl) (by rfl) (by rfl)
    ⟨"part_features", ["part_pt"], "part_pt", 1, jetColsSig, [[1, 2], [3]],
      by decide, by decide, by decide, by rfl, by rfl⟩

/-! Simulation lemmas for C8: two combined-file runs whose sources share
the first processed sample sub-record and the field-name list are
observationally equal — the later sub-records are never read, because the
warm-cache early return leaves `cache_sample_arrays` pointing at the
first sample data. -/

theorem sampleStep_rel (fs1 fs2 : String → Source) (f sample : String)
    (a1 a2 : Acc) (hrel : AccRel a1 a2) :
    StepRel (sampleStep fs1 (.str f) sample a1)
      (sampleStep fs2 (.str f) sample a2) := by
  obtain ⟨sa, sb, hf, hcb, heq⟩ := hrel
  subst heq
  rcases hl : alookup a2.st.label_map sample with _ | cv
  · simp [sampleStep, hl, StepRel]
  · by_cases hmem : sample ∈ sourceFields sb
    · have hmem1 : sample ∈ sourceFields sa := by
        rw [hf]
        exact hmem
      rcases hcsa : a2.st.cache_sample_arrays with _ | sa2
      · simp [sampleStep, hl, load_sample_data, hmem1, hmem, hcb, hcsa,
          StepRel]
      · rcases hrs : resolveSampleSize a2.st.sample_sizes sample sa2.len
            with e | ss
        · simp [sampleStep, hl, load_sample_data, hmem1, hmem, hcb, hcsa,
            hrs, StepRel]
        · rcases hpg : processGroups sa2 a2.st.pad_size ss a2.st.num_jets
              a2.st.feature_dict a2.features none with e | ⟨feats, mopt⟩
          · simp [sampleStep, hl, load_sample_data, hmem1, hmem, hcb, hcsa,
              hrs, hpg, StepRel]
          · have e1 : sampleStep fs1 (.str f) sample
                ⟨a2.features, a2.labels, a2.masks, a2.classSizes,
                 { a2.st with cache_arrays := some sa }⟩ =
                .ok ⟨feats, a2.labels ++ [List.replicate ss cv],
                     a2.masks ++ optToList mopt,
                     bumpClassSize a2.classSizes cv ss,
                     { a2.st with cache_arrays := some sa }⟩ := by
              simp [sampleStep, hl, load_sample_data, hmem1, hcsa, hrs, hpg]
            have e2 : sampleStep fs2 (.str f) sample a2 =
                .ok ⟨feats, a2.labels ++ [List.replicate ss cv],
                     a2.masks ++ optToList mopt,
                     bumpClassSize a2.classSizes cv ss, a2.st⟩ := by
              simp [sampleStep, hl, load_sample_data, hmem, hcb, hcsa, hrs, hpg]
            have hrec : ({ a2 with st := { a2.st with cache_arrays := some sa } } : Acc) =
                ⟨a2.features, a2.labels, a2.masks, a2.classSizes,
                 { a2.st with cache_arrays := some sa }⟩ := rfl
            rw [hrec, e1, e2]
            exact ⟨sa, sb, hf, hcb, rfl⟩
    · have hmem1 : sample ∉ sourceFields sa := by
        rw [hf]
        exact hmem
      simp [sampleStep, hl, load_sample_data, hmem1, hmem, hcb, StepRel]

theorem processSamples_rel (fs1 fs2 : String → Source) (f : String)
    (ss : List String) : ∀ a1 a2, AccRel a1 a2 →
    StepRel (processSamples fs1 (.str f) ss a1)
      (processSamples fs2 (.str f) ss a2) := by
  induction ss with
  | nil =>
    intro a1 a2 h
    simpa [processSamples, StepRel] using h
  | cons s rest ih =>
    intro a1 a2 h
    have hstep := sampleStep_rel fs1 fs2 f s a1 a2 h
    rcases h1 : sampleStep fs1 (.str f) s a1 with ⟨e1, st1⟩ | b1 <;>
      rcases h2 : sampleStep fs2 (.str f) s a2 with ⟨e2, st2⟩ | b2 <;>
      rw [h1, h2] at hstep
    · simp only [processSamples, h1, h2]
      exact hstep
    · exact absurd hstep (by simp [StepRel])
    · exact absurd hstep (by simp [StepRel])
    · simp only [processSamples, h1, h2]
      exact ih b1 b2 hstep

theorem finalize_obs (rng : ℕ → ℕ → List ℕ) (a1 a2 : Acc) (h : AccRel a1 a2) :
    obs (finalize rng a1) = obs (finalize rng a2) := by
  obtain ⟨sa, sb, hf, hcb, heq⟩ := h
  subst heq
  rcases hca : concatAll a2.features with e | concd
  · simp [finalize, hca, obs]
  · rcases hlab : a2.labels with _ | ⟨l0, lrest⟩
    · simp [finalize, hca, hlab, obs]
    · simp only [finalize, hca, hlab]
      by_cases hd : ((concd.map (fun p => p.2.events)).dedup.length = 1)
      · rw [if_pos hd, if_pos hd]
        by_cases hh : ((concd.map (fun p => p.2.events)).headD 0 =
            ((l0 :: lrest) : List (List Int)).flatten.length)
        · rw [if_pos hh, if_pos hh]
          rcases hcm : concatMasksOpt a2.masks with e | maskOpt
          · simp [hcm, obs]
          · rcases maskOpt with _ | m
            · simp only [hcm]
              cases hsh : a2.st.shuffle <;> simp [afterChecks, hsh, obs]
            · simp only [hcm]
              by_cases hm : (m.length =
                  (concd.map (fun p => p.2.events)).headD 0)
              · rw [if_pos hm, if_pos hm]
                cases hsh : a2.st.shuffle <;> simp [afterChecks, hsh, obs]
              · rw [if_neg hm, if_neg hm]
                simp [obs]
        · rw [if_neg hh, if_neg hh]
          simp [obs]
      · rw [if_neg hd, if_neg hd]
        simp [obs]

theorem sampleStep_cold_rel (fs1 fs2 : String → Source) (f s1 : String)
    (d1 : SampleData) (t1 t2 : List (String × SampleData)) (n1 n2 : ℕ)
    (acc : Acc) (hfs1 : fs1 f = .combined n1 ((s1, d1) :: t1))
    (hfs2 : fs2 f = .combined n2 ((s1, d1) :: t2))
    (hk : t1.map Prod.fst = t2.map Prod.fst)
    (hcache : acc.st.cache_arrays = none) :
    StepRel (sampleStep fs1 (.str f) s1 acc)
      (sampleStep fs2 (.str f) s1 acc) := by
  rcases hl : alookup acc.st.label_map s1 with _ | cv
  · simp [sampleStep, hl, StepRel]
  · rcases hrs : resolveSampleSize acc.st.sample_sizes s1 d1.len with e | ss
    · simp [sampleStep, hl, load_sample_data, hcache, hfs1, hfs2,
        getSampleSub, alookup_cons_self, hrs, StepRel]
    · rcases hpg : processGroups d1 acc.st.pad_size ss acc.st.num_jets
          acc.st.feature_dict acc.features none with e | ⟨feats, mopt⟩
      · simp [sampleStep, hl, load_sample_data, hcache, hfs1, hfs2,
          getSampleSub, alookup_cons_self, hrs, hpg, StepRel]
      · simp only [sampleStep, hl, load_sample_data, hcache, hfs1, hfs2,
          getSampleSub, alookup_cons_self, hrs, hpg]
        exact ⟨.combined n1 ((s1, d1) :: t1), .combined n2 ((s1, d1) :: t2),
          by simp [sourceFields, hk], rfl, rfl⟩

/-- C8.  When `filenames` is a single string and the combined source
holds the first processed sample sub-record plus arbitrary later
sub-records, the observable outcome of `load` (published features,
labels, weights, or the raised exception) is unchanged when every later
sub-record content is replaced arbitrarily (only the field names must
stay): `_load_sample_data` returns early on the warm cache without
updating `cache_sample_arrays`, so every sample after the first is built
from the first sample sub-record. -/
theorem load_single_string_uses_first_sample_subrecord
    (fs1 fs2 : String → Source) (rng : ℕ → ℕ → List ℕ) (f s1 : String)
    (d1 : SampleData) (t1 t2 : List (String × SampleData)) (n1 n2 : ℕ)
    (rest : List String) (st : PCD)
    (hfs1 : fs1 f = .combined n1 ((s1, d1) :: t1))
    (hfs2 : fs2 f = .combined n2 ((s1, d1) :: t2))
    (hk : t1.map Prod.fst = t2.map Prod.fst) :
    obs (load fs1 rng (.str f) (some (s1 :: rest)) st) =
    obs (load fs2 rng (.str f) (some (s1 :: rest)) st) := by
  unfold load
  simp only [Option.getD]
  have hcold := sampleStep_cold_rel fs1 fs2 f s1 d1 t1 t2 n1 n2
    ⟨[], [], [], [], clear_cache st⟩ hfs1 hfs2 hk rfl
  rcases h1 : sampleStep fs1 (.str f) s1 ⟨[], [], [], [], clear_cache st⟩
      with ⟨e1, st1⟩ | b1 <;>
    rcases h2 : sampleStep fs2 (.str f) s1 ⟨[], [], [], [], clear_cache st⟩
      with ⟨e2, st2⟩ | b2 <;>
    rw [h1, h2] at hcold
  · have he : e1 = e2 := hcold
    simp [processSamples, h1, h2, obs, he]
  · exact absurd hcold (by simp [StepRel])
  · exact absurd hcold (by simp [StepRel])
  · have hrest := processSamples_rel fs1 fs2 f rest b1 b2 hcold
    rcases h1' : processSamples fs1 (.str f) rest b1 with ⟨e1, st1⟩ | c1 <;>
      rcases h2' : processSamples fs2 (.str f) rest b2 with ⟨e2, st2⟩ | c2 <;>
      rw [h1', h2'] at hrest
    · have he : e1 = e2 := hrest
      simp [processSamples, h1, h2, h1', h2', obs, he]
    · exact absurd hrest (by simp [StepRel])
    · exact absurd hrest (by simp [StepRel])
    · simp only [processSamples, h1, h2, h1', h2']
      exact finalize_obs rng c1 c2 hrest

/-- C8, witness: replacing the "bkg" sub-record of the combined fixture
file with entirely different data leaves the published dataset
unchanged. -/
theorem load_single_string_uses_first_sample_subrecord_witness :
    obs (load fsStr1 rngEx (.str "all.parquet") (some ["sig", "bkg"]) basePCD) =
    obs (load fsStr2 rngEx (.str "all.parquet") (some ["sig", "bkg"]) basePCD) :=
  load_single_string_uses_first_sample_subrecord fsStr1 fsStr2 rngEx
    "all.parquet" "sig" sampleSig [("bkg", sampleBkg)] [("bkg", sampleBkgAlt)]
    3 3 ["bkg"] basePCD rfl rfl rfl

/-- C9.  For every `PointCloudDataset` object, accessing the `masks`
property raises `AttributeError`: its body reads `self.features`, but the
class defines only the `_features` attribute and the `X` property, so the
attribute lookup fails before the mask could be returned. -/
theorem masks_property_always_raises (st : PCD) :
    PCD.masksProperty st = .error (.attributeError "features") := by
  rfl

end Aliad
